import Mathlib

/-!
Verification development for the vue-i18n-convert repository.

The JavaScript sources are shallowly embedded as executable Lean
definitions:
  * utilities from `src/utils.js` (classifier, trailing-colon detection,
    template-variable extraction, dictionary flattening, key resolution);
  * the markup rewriter from `src/templateParser.js` (regex passes are
    embedded as fuelled character-list scanners with the exact character
    classes of the source regexes);
  * the syntax-tree rewriter from `src/scriptParser.js` (the recast
    visitors are embedded as a structural transform over an expression
    AST, with the visitor skip conditions carried as a context record).

All definitions are computable so that concrete runs evaluate by
`decide` / `rfl`.
-/

namespace VC

/-- Character constants written via code points (brace, backtick, quotes). -/
def lbChar : Char := Char.ofNat 123

def rbChar : Char := Char.ofNat 125

def bqChar : Char := Char.ofNat 96

def sqChar : Char := Char.ofNat 39

def dqChar : Char := Char.ofNat 34

/-- Whitespace as trimmed/matched by the source (space, tab, newline, CR). -/
def isWSChar (c : Char) : Bool := c == ' ' || c == '\t' || c == '\n' || c == '\r'

/-- Drop leading and trailing whitespace from a character list. -/
def trimChars (l : List Char) : List Char :=
  ((l.dropWhile isWSChar).reverse.dropWhile isWSChar).reverse

/-- Embeds JavaScript `String.prototype.trim` for the characters the tool meets. -/
def jsTrim (s : String) : String := String.mk (trimChars s.data)

/-- Embeds `String.prototype.startsWith`. -/
def jsStartsWith (s pat : String) : Bool := pat.data.isPrefixOf s.data

/-- Embeds `String.prototype.endsWith`. -/
def jsEndsWith (s pat : String) : Bool := pat.data.isSuffixOf s.data

/-- Substring containment on character lists. -/
def containsSub : List Char → List Char → Bool
  | [], pat => pat.isEmpty
  | c :: rest, pat => pat.isPrefixOf (c :: rest) || containsSub rest pat

/-- Embeds `String.prototype.includes`. -/
def jsIncludes (s pat : String) : Bool := containsSub s.data pat.data

/-- Membership in the CJK Unified Ideographs range `[一-龥]`. -/
def isCJK (c : Char) : Bool := 0x4e00 ≤ c.toNat && c.toNat ≤ 0x9fa5

/-- Embeds `isOnlyChinese` from `src/utils.js`: trim, reject empty and pure
ASCII-digit strings, then test for at least one CJK ideograph. -/
def isOnlyChinese (s : String) : Bool :=
  let t := jsTrim s
  if t.data.isEmpty then false
  else if t.data.all (fun c => c.isDigit) then false
  else t.data.any isCJK

/-- Embeds `cleanString` from `src/utils.js` (only edge whitespace removed). -/
def cleanString (s : String) : String := jsTrim s

/-- Result record of `detectColonSuffix`. -/
structure ColonInfo where
  hasColonSuffix : Bool
  colonChar : String
  textWithoutColon : String
deriving DecidableEq, Repr

/-- Drop the final character, embedding `str.slice(0, -1)`. -/
def dropLastChar (s : String) : String := String.mk s.data.dropLast

/-- Embeds `detectColonSuffix` from `src/utils.js`: recognizes one trailing
full-width or ASCII colon. -/
def detectColonSuffix (s : String) : ColonInfo :=
  if s.data.isEmpty then ⟨false, "", s⟩
  else if jsEndsWith s ("：") then ⟨true, "：", dropLastChar s⟩
  else if jsEndsWith s (":") then ⟨true, ":", dropLastChar s⟩
  else ⟨false, "", s⟩

/-- Decimal digit character for `n < 10` (used to embed `String(number)`). -/
def digitChar : Nat → Char
  | 0 => '0'
  | 1 => '1'
  | 2 => '2'
  | 3 => '3'
  | 4 => '4'
  | 5 => '5'
  | 6 => '6'
  | 7 => '7'
  | 8 => '8'
  | _ => '9'

/-- Fuelled decimal digit expansion of a natural number. -/
def natReprAux : Nat → Nat → List Char
  | 0, _ => []
  | fuel + 1, n =>
    if n < 10 then [digitChar n]
    else natReprAux fuel (n / 10) ++ [digitChar (n % 10)]

/-- Decimal rendering of a natural number (embeds JS number-to-string for
the nonnegative integers the tool produces). -/
def natRepr (n : Nat) : String := String.mk (natReprAux (n + 1) n)

/-- Result record of `extractTemplateVars`. -/
structure TemplateVars where
  text : String
  params : List (String × String)
  hasChinese : Bool
deriving DecidableEq, Repr

/-- Attempt to read a `$\x7b...\x7d` variable occurrence at the head of the
list: the body is one or more characters none of which is a closing brace,
exactly the `\$\x7b([^\x7d]+)\x7d` regex of the source. Returns the body and
the remainder after the closing brace. -/
def findVarAt : List Char → Option (List Char × List Char)
  | '$' :: c :: rest =>
    if c == lbChar then
      let body := rest.takeWhile (fun x => x != rbChar)
      let rest2 := rest.dropWhile (fun x => x != rbChar)
      match rest2 with
      | r :: rest3 => if r == rbChar && !body.isEmpty then some (body, rest3) else none
      | [] => none
    else none
  | _ => none

/-- Fuelled scan replacing every `$\x7b...\x7d` occurrence by the empty
string (the `textWithoutVars` computation of `extractTemplateVars`). -/
def stripVarsAux : Nat → List Char → List Char
  | 0, l => l
  | fuel + 1, l =>
    match l with
    | [] => []
    | c :: rest =>
      match findVarAt l with
      | some (_, rest2) => stripVarsAux fuel rest2
      | none => c :: stripVarsAux fuel rest

/-- Fuelled scan replacing every `$\x7b expr \x7d` by `\x7bparamN\x7d` and
collecting `(paramN, expr.trim())` pairs in order of appearance. -/
def extractVarsAux : Nat → List Char → Nat → List Char × List (String × String)
  | 0, l, _ => (l, [])
  | fuel + 1, l, idx =>
    match l with
    | [] => ([], [])
    | c :: rest =>
      match findVarAt l with
      | some (body, rest2) =>
        let name := "param" ++ natRepr idx
        let (t, ps) := extractVarsAux fuel rest2 (idx + 1)
        (lbChar :: (name.data ++ (rbChar :: t)), (name, jsTrim (String.mk body)) :: ps)
      | none =>
        let (t, ps) := extractVarsAux fuel rest idx
        (c :: t, ps)

/-- Embeds `extractTemplateVars` from `src/utils.js`. -/
def extractTemplateVars (template : String) : TemplateVars :=
  let hasChinese := isOnlyChinese (String.mk (stripVarsAux (template.data.length + 1) template.data))
  let (t, ps) := extractVarsAux (template.data.length + 1) template.data 1
  ⟨String.mk t, ps, hasChinese⟩

/-- Value stored for one text in the flattened dictionary: a single key or
an ordered, nonempty group of keys (the JS code stores a string or an
array; arrays are always created with two elements and only appended to). -/
inductive KeyOrKeys where
  | one (key : String)
  | many (head : String) (tail : List String)
deriving DecidableEq, Repr

/-- Insertion-ordered map from normalized text to its key group. -/
abbrev I18nMap := List (String × KeyOrKeys)

/-- Lookup in the flattened dictionary (embeds `Map.get` on the insertion
ordered map, searching from the front). -/
def lookupMap (m : I18nMap) (text : String) : Option KeyOrKeys :=
  (m.find? (fun p => p.1 == text)).map (fun p => p.2)

/-- Embeds one `result.set` / array-push step of `flattenI18nObject`: a new
text is appended at the end; an existing single key becomes a two-element
group; an existing group is appended to, keeping its map position. -/
def addKey : I18nMap → String → String → I18nMap
  | [], text, k => [(text, KeyOrKeys.one k)]
  | (t, v) :: rest, text, k =>
    if t == text then
      match v with
      | KeyOrKeys.one k0 => (t, KeyOrKeys.many k0 [k]) :: rest
      | KeyOrKeys.many h tl => (t, KeyOrKeys.many h (tl ++ [k])) :: rest
    else (t, v) :: addKey rest text k

mutual

/-- Nested dictionary value as loaded from the language pack: a string
leaf, a nested object (field list in insertion order), or any other value
(ignored by the flattener, e.g. arrays and numbers). -/
inductive ZhVal where
  | str (s : String)
  | node (fields : ZhFields)
  | other

/-- Field list of a nested dictionary object. -/
inductive ZhFields where
  | nil
  | cons (name : String) (v : ZhVal) (tail : ZhFields)

end

mutual

/-- Embeds the loop body of `flattenI18nObject` over the fields of one
object, threading the accumulated map. -/
def flattenFields (pre : String) : ZhFields → I18nMap → I18nMap
  | ZhFields.nil, acc => acc
  | ZhFields.cons name v tl, acc =>
    flattenFields pre tl (flattenEntry pre name v acc)

/-- Embeds one iteration of `flattenI18nObject`: nested objects recurse
with the extended key path; string leaves are indexed under their text
with any trailing colon stripped; other values are skipped. -/
def flattenEntry (pre name : String) : ZhVal → I18nMap → I18nMap
  | v, acc =>
    let fullKey := if pre == "" then name else pre ++ "." ++ name
    match v with
    | ZhVal.node fs => flattenFields fullKey fs acc
    | ZhVal.str s => addKey acc (detectColonSuffix s).textWithoutColon fullKey
    | ZhVal.other => acc

end

/-- Flatten a language pack object into the text-to-keys map (embeds
`flattenI18nObject(obj)` with its default arguments). -/
def flattenI18nObject (fs : ZhFields) : I18nMap := flattenFields "" fs []

/-- Resolution options (`setConvertOptions`): `matchPath = none` embeds the
JS `null` (the CLI normalizes an absent or empty value to `null`). -/
structure Options where
  skipUnmatched : Bool
  matchPath : Option String
deriving DecidableEq, Repr

/-- Unmatched-text set, as an insertion-ordered duplicate-free list
(embeds the JS `Set` of `unmatchedTexts`). -/
abbrev USet := List String

/-- Embeds `unmatchedTexts.add`. -/
def addUnmatched (u : USet) (t : String) : USet :=
  if u.contains t then u else u ++ [t]

/-- Embeds `isKeyPathMatched` from `src/utils.js`. -/
def isKeyPathMatched (o : Options) (key : String) : Bool :=
  match o.matchPath with
  | none => true
  | some mp => jsStartsWith key ("common.") || jsStartsWith key (mp ++ ".")

/-- Embeds `getKeyForChinese` from `src/utils.js`; the mutation of the
global `unmatchedTexts` set is threaded explicitly. Result `none` embeds
the JS `null`. -/
def getKeyForChinese (o : Options) (m : I18nMap) (text : String) (u : USet) :
    Option String × USet :=
  match lookupMap m text with
  | some (KeyOrKeys.one k) =>
    if isKeyPathMatched o k then (some k, u)
    else if o.skipUnmatched then (none, addUnmatched u text)
    else (some text, addUnmatched u text)
  | some (KeyOrKeys.many h tl) =>
    let ks := h :: tl
    match ks.find? (fun k => jsStartsWith k ("common.")) with
    | some ck => (some ck, u)
    | none =>
      let viaMp : Option String :=
        match o.matchPath with
        | some mp => ks.find? (fun k => jsStartsWith k (mp ++ "."))
        | none => none
      match viaMp with
      | some mk => (some mk, u)
      | none =>
        if isKeyPathMatched o h then (some h, u)
        else if o.skipUnmatched then (none, addUnmatched u text)
        else (some text, addUnmatched u text)
  | none =>
    if o.skipUnmatched then (none, addUnmatched u text)
    else (some text, addUnmatched u text)

/-- Property key of an object literal: an identifier key or a
string-literal key (string keys are what `isObjectPropertyKey` skips). -/
inductive PropKey where
  | pid (name : String)
  | pstr (s : String)
deriving DecidableEq, Repr

mutual

/-- Expression AST for the code region, covering the node shapes the
rewriter inspects: string and numeric literals, identifiers, member
access, calls, binary expressions, object literals and template
literals (quasis are the cooked segment strings). -/
inductive Expr where
  | strLit (value : String)
  | numLit (value : Int)
  | ident (name : String)
  | member (obj : Expr) (propName : String)
  | call (callee : Expr) (args : ExprList)
  | binary (op : String) (lhs rhs : Expr)
  | objectE (props : PropList)
  | template (quasis : List String) (exprs : ExprList)
deriving DecidableEq

/-- Argument / expression list (mutually inductive with `Expr` so that
all traversals are structurally recursive and kernel-evaluable). -/
inductive ExprList where
  | nil
  | cons (head : Expr) (tail : ExprList)
deriving DecidableEq

/-- Property list of an object literal. -/
inductive PropList where
  | nil
  | cons (key : PropKey) (value : Expr) (tail : PropList)
deriving DecidableEq

end

/-- Rendering of a property key. -/
def propKeyToCode : PropKey → String
  | PropKey.pid n => n
  | PropKey.pstr s => String.mk (dqChar :: (s.data ++ [dqChar]))

/-- Interleave the quasi segments of a template with the printed codes of
its expressions, each wrapped as `$\x7b code \x7d` (the loop of
`getTemplateString`: expressions beyond the quasi count are dropped,
trailing quasis are appended verbatim). -/
def interleaveTemplate : List String → List String → String
  | [], _ => ""
  | q :: qs, [] => q ++ interleaveTemplate qs []
  | q :: qs, c :: cs =>
    q ++ (String.mk ('$' :: lbChar :: c.data) ++ String.mk [rbChar]) ++ interleaveTemplate qs cs

mutual

/-- Canonical code printer, standing in for `recast.print(node).code` when
the rewriter re-serializes an expression (template `$\x7b...\x7d` pieces). -/
def exprToCode : Expr → String
  | Expr.strLit v => String.mk (dqChar :: (v.data ++ [dqChar]))
  | Expr.numLit n => toString n
  | Expr.ident n => n
  | Expr.member o p => exprToCode o ++ "." ++ p
  | Expr.call c args => exprToCode c ++ "(" ++ exprListToCode args ++ ")"
  | Expr.binary op l r => exprToCode l ++ " " ++ op ++ " " ++ exprToCode r
  | Expr.objectE ps => String.mk (lbChar :: (propListToCode ps).data) ++ String.mk [rbChar]
  | Expr.template qs es =>
    String.mk (bqChar :: (interleaveTemplate qs (exprCodes es)).data) ++ String.mk [bqChar]

/-- Printed codes of the expressions of a list, in order. -/
def exprCodes : ExprList → List String
  | ExprList.nil => []
  | ExprList.cons e tl => exprToCode e :: exprCodes tl

/-- Comma-separated rendering of an expression list. -/
def exprListToCode : ExprList → String
  | ExprList.nil => ""
  | ExprList.cons e ExprList.nil => exprToCode e
  | ExprList.cons e tl => exprToCode e ++ ", " ++ exprListToCode tl

/-- Comma-separated rendering of object properties. -/
def propListToCode : PropList → String
  | PropList.nil => ""
  | PropList.cons k v PropList.nil => propKeyToCode k ++ ": " ++ exprToCode v
  | PropList.cons k v tl => propKeyToCode k ++ ": " ++ exprToCode v ++ ", " ++ propListToCode tl

end

/-- Embeds `getTemplateString` from `src/scriptParser.js`: interleaves the
cooked quasi segments with `$\x7b expr \x7d` for each embedded expression. -/
def templateSource (qs : List String) (es : ExprList) : String :=
  interleaveTemplate qs (exprCodes es)

/-- Embeds `containsStringLiteral` from `src/scriptParser.js`. -/
def containsStringLiteral : Expr → Bool
  | Expr.strLit _ => true
  | Expr.binary op l r =>
    op == "+" && (containsStringLiteral l || containsStringLiteral r)
  | _ => false

/-- One part of a decomposed `+` concatenation chain: a string-literal
part or an opaque expression hole. -/
inductive ChainPart where
  | pstr (s : String)
  | phole (e : Expr)
deriving DecidableEq

/-- Embeds `collectBinaryParts` from `src/scriptParser.js`: a nested `+`
chain is split only while one of its sides still contains a string
literal; otherwise the whole subexpression is one hole. -/
def collectBinaryParts : Expr → List ChainPart
  | Expr.binary op l r =>
    if op == "+" && (containsStringLiteral l || containsStringLiteral r) then
      collectBinaryParts l ++ collectBinaryParts r
    else if op == "+" then [ChainPart.phole (Expr.binary op l r)]
    else [ChainPart.phole (Expr.binary op l r)]
  | Expr.strLit s => [ChainPart.pstr s]
  | e => [ChainPart.phole e]

/-- Embeds the part-walking loop of `visitBinaryExpression`: concatenates
literal parts, substitutes `\x7bparamN\x7d` for each hole in encounter
order, and collects the named chainVars. -/
def buildChainTemplate : List ChainPart → Nat → String × List (String × Expr)
  | [], _ => ("", [])
  | ChainPart.pstr s :: rest, n =>
    let (t, vs) := buildChainTemplate rest n
    (s ++ t, vs)
  | ChainPart.phole e :: rest, n =>
    let name := "param" ++ natRepr (n + 1)
    let (t, vs) := buildChainTemplate rest (n + 1)
    (String.mk (lbChar :: (name.data ++ (rbChar :: t.data))), (name, e) :: vs)

/-- Whether the chain contains at least one string-literal part. -/
def hasStringPart : List ChainPart → Bool
  | [] => false
  | ChainPart.pstr _ :: _ => true
  | ChainPart.phole _ :: rest => hasStringPart rest

/-- Name of the direct identifier receiver of a callee, if any
(`callee.object.name` in the source). -/
def calleeObjName : Expr → Option String
  | Expr.ident n => some n
  | _ => none

/-- Embeds the callee test of `isInConsoleCall`: a call whose callee is a
member expression on the identifier `console`. -/
def isConsoleCallee : Expr → Bool
  | Expr.member o _ => calleeObjName o == some ("console")
  | _ => false

/-- Embeds the callee test of `isInI18nCall` from `src/scriptParser.js`:
`i18n.t(...)`, `$i18n.t(...)`, any `.$t(...)` member call, or a bare
`$t(...)` call. -/
def isI18nCallShape : Expr → Bool
  | Expr.member o p =>
    ((calleeObjName o == some ("i18n") || calleeObjName o == some ("$i18n")) && p == "t") ||
      p == "$t"
  | Expr.ident n => n == "$t"
  | _ => false

/-- Visitor context: the ancestor facts the skip conditions consult.
`inConsole` records a `console.*` call anywhere up the ancestor chain;
`parentIsI18n` and `parentPlusBinary` record the immediate parent node
shape; `marked` records membership in a `+` chain already marked by
`markProcessedNodes`. -/
structure Ctx where
  inConsole : Bool
  parentIsI18n : Bool
  parentPlusBinary : Bool
  marked : Bool
deriving DecidableEq, Repr

/-- Context of a root node (no relevant ancestors). -/
def ctx0 : Ctx := ⟨false, false, false, false⟩

/-- Translation call `$i18n.t(key)` as built by the rewriter. -/
def i18nT (key : String) : Expr :=
  Expr.call (Expr.member (Expr.ident ("$i18n")) ("t"))
    (ExprList.cons (Expr.strLit key) ExprList.nil)

/-- Translation call `$i18n.t(key, props)` as built by the rewriter. -/
def i18nTP (key : String) (props : PropList) : Expr :=
  Expr.call (Expr.member (Expr.ident ("$i18n")) ("t"))
    (ExprList.cons (Expr.strLit key) (ExprList.cons (Expr.objectE props) ExprList.nil))

/-- Build the parameter object of a converted chain from its hole
chainVars. -/
def varsToProps : List (String × Expr) → PropList
  | [] => PropList.nil
  | (n, e) :: rest => PropList.cons (PropKey.pid n) e (varsToProps rest)

/-- Pair extracted parameter names with the template's embedded
expression nodes (`node.expressions[index]` in the source). -/
def zipParams : List (String × String) → ExprList → PropList
  | [], _ => PropList.nil
  | _, ExprList.nil => PropList.nil
  | (n, _) :: ps, ExprList.cons e es => PropList.cons (PropKey.pid n) e (zipParams ps es)

/-- Length of an expression list. -/
def exprListLength : ExprList → Nat
  | ExprList.nil => 0
  | ExprList.cons _ tl => exprListLength tl + 1

mutual

/-- Embeds the recast visitor of `convertScript` from `src/scriptParser.js`
as a structural transform: `visitBinaryExpression`, `visitLiteral` and
`visitTemplateLiteral` with their skip conditions, threading the
unmatched-text set. Replacements built by `path.replace` are traversed
exactly as recast does: a converted template's parameter values are
visited in their new positions, while a converted `+` chain returns
`false` and is not descended into. -/
def convertExpr (o : Options) (m : I18nMap) : Ctx → Expr → USet → Expr × USet
  | ctx, Expr.strLit v, u =>
    if ctx.marked then (Expr.strLit v, u)
    else if ctx.parentPlusBinary then (Expr.strLit v, u)
    else if ctx.inConsole then (Expr.strLit v, u)
    else if ctx.parentIsI18n then (Expr.strLit v, u)
    else
      let cleaned := cleanString v
      if isOnlyChinese cleaned then
        let ci := detectColonSuffix cleaned
        if ci.hasColonSuffix then
          match getKeyForChinese o m ci.textWithoutColon u with
          | (none, u2) => (Expr.strLit v, u2)
          | (some k, u2) =>
            (Expr.binary ("+") (i18nT k) (Expr.strLit ci.colonChar), u2)
        else
          match getKeyForChinese o m cleaned u with
          | (none, u2) => (Expr.strLit v, u2)
          | (some k, u2) => (i18nT k, u2)
      else (Expr.strLit v, u)
  | _, Expr.numLit n, u => (Expr.numLit n, u)
  | _, Expr.ident n, u => (Expr.ident n, u)
  | ctx, Expr.member obj p, u =>
    let (obj2, u2) := convertExpr o m ⟨ctx.inConsole, false, false, false⟩ obj u
    (Expr.member obj2 p, u2)
  | ctx, Expr.call callee args, u =>
    let cctx : Ctx :=
      ⟨ctx.inConsole || isConsoleCallee callee, isI18nCallShape callee, false, false⟩
    let (callee2, u2) := convertExpr o m cctx callee u
    let (args2, u3) := convertExprList o m cctx args u2
    (Expr.call callee2 args2, u3)
  | ctx, Expr.objectE props, u =>
    let (props2, u2) := convertProps o m ⟨ctx.inConsole, false, false, false⟩ props u
    (Expr.objectE props2, u2)
  | ctx, Expr.binary op l r, u =>
    if ctx.marked then
      let cctx : Ctx := ⟨ctx.inConsole, false, op == "+", true⟩
      let (l2, u2) := convertExpr o m cctx l u
      let (r2, u3) := convertExpr o m cctx r u2
      (Expr.binary op l2 r2, u3)
    else if op == "+" then
      if ctx.inConsole || ctx.parentIsI18n then
        let cctx : Ctx := ⟨ctx.inConsole, false, true, false⟩
        let (l2, u2) := convertExpr o m cctx l u
        let (r2, u3) := convertExpr o m cctx r u2
        (Expr.binary op l2 r2, u3)
      else
        let parts := collectBinaryParts (Expr.binary op l r)
        if hasStringPart parts then
          let (templateText, chainVars) := buildChainTemplate parts 0
          let cleaned := cleanString templateText
          if isOnlyChinese cleaned then
            let ci := detectColonSuffix cleaned
            let finalText := if ci.hasColonSuffix then ci.textWithoutColon else cleaned
            match getKeyForChinese o m finalText u with
            | (none, u2) =>
              let mctx : Ctx := ⟨ctx.inConsole, false, true, true⟩
              let (l2, u3) := convertExpr o m mctx l u2
              let (r2, u4) := convertExpr o m mctx r u3
              (Expr.binary op l2 r2, u4)
            | (some k, u2) =>
              let callE :=
                if chainVars.isEmpty then i18nT k else i18nTP k (varsToProps chainVars)
              if ci.hasColonSuffix then
                (Expr.binary ("+") callE (Expr.strLit ci.colonChar), u2)
              else (callE, u2)
          else
            let cctx : Ctx := ⟨ctx.inConsole, false, true, false⟩
            let (l2, u2) := convertExpr o m cctx l u
            let (r2, u3) := convertExpr o m cctx r u2
            (Expr.binary op l2 r2, u3)
        else
          let cctx : Ctx := ⟨ctx.inConsole, false, true, false⟩
          let (l2, u2) := convertExpr o m cctx l u
          let (r2, u3) := convertExpr o m cctx r u2
          (Expr.binary op l2 r2, u3)
    else
      let cctx : Ctx := ⟨ctx.inConsole, false, false, false⟩
      let (l2, u2) := convertExpr o m cctx l u
      let (r2, u3) := convertExpr o m cctx r u2
      (Expr.binary op l2 r2, u3)
  | ctx, Expr.template qs es, u =>
    if ctx.inConsole then
      let (es2, u2) := convertExprList o m ⟨ctx.inConsole, false, false, false⟩ es u
      (Expr.template qs es2, u2)
    else if ctx.parentIsI18n then
      let (es2, u2) := convertExprList o m ⟨ctx.inConsole, false, false, false⟩ es u
      (Expr.template qs es2, u2)
    else
      let templateText := templateSource qs es
      let cleaned := cleanString templateText
      if isOnlyChinese cleaned then
        if exprListLength es > 0 then
          let ev := extractTemplateVars templateText
          let ci := detectColonSuffix ev.text
          let finalText := if ci.hasColonSuffix then ci.textWithoutColon else ev.text
          match getKeyForChinese o m finalText u with
          | (none, u2) =>
            let (es2, u3) := convertExprList o m ⟨ctx.inConsole, false, false, false⟩ es u2
            (Expr.template qs es2, u3)
          | (some k, u2) =>
            let (props2, u3) :=
              convertZip o m ⟨ctx.inConsole, false, false, false⟩ ev.params es u2
            let callE := i18nTP k props2
            if ci.hasColonSuffix then
              (Expr.binary ("+") callE (Expr.strLit ci.colonChar), u3)
            else (callE, u3)
        else
          let ci := detectColonSuffix cleaned
          let finalText := if ci.hasColonSuffix then ci.textWithoutColon else cleaned
          match getKeyForChinese o m finalText u with
          | (none, u2) =>
            let (es2, u3) := convertExprList o m ⟨ctx.inConsole, false, false, false⟩ es u2
            (Expr.template qs es2, u3)
          | (some k, u2) =>
            if ci.hasColonSuffix then
              (Expr.binary ("+") (i18nT k) (Expr.strLit ci.colonChar), u2)
            else (i18nT k, u2)
      else
        let (es2, u2) := convertExprList o m ⟨ctx.inConsole, false, false, false⟩ es u
        (Expr.template qs es2, u2)

/-- Transform of an expression list, threading the unmatched set in
source order. -/
def convertExprList (o : Options) (m : I18nMap) : Ctx → ExprList → USet → ExprList × USet
  | _, ExprList.nil, u => (ExprList.nil, u)
  | ctx, ExprList.cons e es, u =>
    let (e2, u2) := convertExpr o m ctx e u
    let (es2, u3) := convertExprList o m ctx es u2
    (ExprList.cons e2 es2, u3)

/-- Transform of the values of an object literal (keys are never visited
as expressions, embedding the `isObjectPropertyKey` skip). -/
def convertProps (o : Options) (m : I18nMap) : Ctx → PropList → USet → PropList × USet
  | _, PropList.nil, u => (PropList.nil, u)
  | ctx, PropList.cons k v tl, u =>
    let (v2, u2) := convertExpr o m ctx v u
    let (tl2, u3) := convertProps o m ctx tl u2
    (PropList.cons k v2 tl2, u3)

/-- Builds the parameter object of a converted template literal: each
extracted parameter name is paired with the template's embedded
expression node at the same index, and the traversal of the replacement
visits each of those values in its new position. -/
def convertZip (o : Options) (m : I18nMap) :
    Ctx → List (String × String) → ExprList → USet → PropList × USet
  | _, [], _, u => (PropList.nil, u)
  | _, _ :: _, ExprList.nil, u => (PropList.nil, u)
  | ctx, (n, _) :: ps, ExprList.cons e es, u =>
    let (e2, u2) := convertExpr o m ctx e u
    let (ps2, u3) := convertZip o m ctx ps es u2
    (PropList.cons (PropKey.pid n) e2 ps2, u3)

end

/-- Output format selector of `convertToI18n`. -/
inductive Fmt where
  | template
  | attr
deriving DecidableEq

/-- Embeds `convertToI18n` from `src/templateParser.js`: colon-aware
conversion of one markup text into a `$t` call string; `none` embeds the
JS `null` (skip this occurrence). -/
def convertToI18n (o : Options) (m : I18nMap) (text : String) (format : Fmt) (u : USet) :
    Option String × USet :=
  let ci := detectColonSuffix text
  if ci.hasColonSuffix then
    match getKeyForChinese o m ci.textWithoutColon u with
    | (none, u2) => (none, u2)
    | (some k, u2) =>
      match format with
      | Fmt.template =>
        (some (String.mk (lbChar :: lbChar :: (" $t('" ++ k ++ "') + \"" ++ ci.colonChar ++
          "\" ").data ++ [rbChar, rbChar])), u2)
      | Fmt.attr => (some ("$t('" ++ k ++ "') + '" ++ ci.colonChar ++ "'"), u2)
  else
    match getKeyForChinese o m text u with
    | (none, u2) => (none, u2)
    | (some k, u2) =>
      match format with
      | Fmt.template =>
        (some (String.mk (lbChar :: lbChar :: (" $t('" ++ k ++ "') ").data ++
          [rbChar, rbChar])), u2)
      | Fmt.attr => (some ("$t('" ++ k ++ "')"), u2)

/-- Quote characters of the `["']` character class. -/
def isQuote (c : Char) : Bool := c == dqChar || c == sqChar

/-- Attribute-name characters of the `[a-zA-Z-:@]` class (pass 3). -/
def isAttrChar (c : Char) : Bool := c.isAlpha || c == '-' || c == ':' || c == '@'

/-- Attribute-name characters of the `[a-zA-Z-]` class (passes 4 and 5). -/
def isAttrChar2 (c : Char) : Bool := c.isAlpha || c == '-'

/-- Split a character list at the first occurrence of `pat`, returning the
chunk before it and the remainder after it (the non-greedy `*?` step of
the comment and interpolation regexes). -/
def splitAtSub : Nat → List Char → List Char → Option (List Char × List Char)
  | 0, _, _ => none
  | fuel + 1, l, pat =>
    if pat.isPrefixOf l then some ([], l.drop pat.length)
    else
      match l with
      | [] => none
      | c :: rest =>
        match splitAtSub fuel rest pat with
        | some (pre2, rest2) => some (c :: pre2, rest2)
        | none => none

/-- Pass 0 of `convertTemplate`: protect HTML comments
(`<!--[\s\S]*?-->`) behind numbered placeholder tokens, collecting the
comments in order. -/
def pass0Go : Nat → List Char → List String → List Char × List String
  | 0, l, cs => (l, cs)
  | fuel + 1, l, cs =>
    match l with
    | [] => ([], cs)
    | c :: rest =>
      if ("<!--").data.isPrefixOf l then
        match splitAtSub (l.length + 1) (l.drop 4) (("-->").data) with
        | some (content, rest2) =>
          let comment := "<!--" ++ String.mk content ++ "-->"
          let ph := "___COMMENT_PLACEHOLDER___" ++ natRepr cs.length ++ "___"
          let (tail, cs2) := pass0Go fuel rest2 (cs ++ [comment])
          (ph.data ++ tail, cs2)
        | none =>
          let (tail, cs2) := pass0Go fuel rest cs
          (c :: tail, cs2)
      else
        let (tail, cs2) := pass0Go fuel rest cs
        (c :: tail, cs2)

/-- Match attempt for pass 1 at the current position: the regex
`\x7b\x7b\s*["']([^"']+)["']\s*\x7d\x7d`. Returns the whole match, the
captured body, and the remainder. -/
def tryPass1 (l : List Char) : Option (List Char × List Char × List Char) :=
  match l with
  | a :: b :: rest0 =>
    if a == lbChar && b == lbChar then
      let ws1 := rest0.takeWhile isWSChar
      let rest1 := rest0.dropWhile isWSChar
      match rest1 with
      | q1 :: rest2 =>
        if isQuote q1 then
          let body := rest2.takeWhile (fun c => !isQuote c)
          let rest3 := rest2.dropWhile (fun c => !isQuote c)
          if body.isEmpty then none
          else
            match rest3 with
            | q2 :: rest4 =>
              if isQuote q2 then
                let ws2 := rest4.takeWhile isWSChar
                let rest5 := rest4.dropWhile isWSChar
                match rest5 with
                | x :: y :: rest6 =>
                  if x == rbChar && y == rbChar then
                    some (a :: b :: (ws1 ++ q1 :: (body ++ q2 :: (ws2 ++ [x, y]))),
                      body, rest6)
                  else none
                | _ => none
              else none
            | [] => none
        else none
      | [] => none
    else none
  | _ => none

/-- Handler of pass 1 (string literals inside interpolation): skip matches
already containing `$t(`, otherwise classify and convert. -/
def pass1Handler (o : Options) (m : I18nMap) (whole body : String) (u : USet) :
    String × USet :=
  if jsIncludes whole ("$t(") then (whole, u)
  else
    let cleaned := cleanString body
    if isOnlyChinese cleaned then
      match convertToI18n o m cleaned Fmt.template u with
      | (some conv, u2) => (conv, u2)
      | (none, u2) => (whole, u2)
    else (whole, u)

/-- Scanner of pass 1. -/
def pass1Go (o : Options) (m : I18nMap) : Nat → List Char → USet → List Char × USet
  | 0, l, u => (l, u)
  | fuel + 1, l, u =>
    match l with
    | [] => ([], u)
    | c :: rest =>
      match tryPass1 l with
      | some (whole, body, rest2) =>
        let (rep, u2) := pass1Handler o m (String.mk whole) (String.mk body) u
        let (tail, u3) := pass1Go o m fuel rest2 u2
        (rep.data ++ tail, u3)
      | none =>
        let (tail, u2) := pass1Go o m fuel rest u
        (c :: tail, u2)

/-- Match attempt for pass 1.5: the regex
`\x7b\x7b\s*` backtick `([^`...`]*)` backtick `\s*\x7d\x7d` (template
strings inside interpolation; the body may be empty). -/
def tryPass15 (l : List Char) : Option (List Char × List Char × List Char) :=
  match l with
  | a :: b :: rest0 =>
    if a == lbChar && b == lbChar then
      let ws1 := rest0.takeWhile isWSChar
      let rest1 := rest0.dropWhile isWSChar
      match rest1 with
      | q1 :: rest2 =>
        if q1 == bqChar then
          let body := rest2.takeWhile (fun c => c != bqChar)
          let rest3 := rest2.dropWhile (fun c => c != bqChar)
          match rest3 with
          | q2 :: rest4 =>
            if q2 == bqChar then
              let ws2 := rest4.takeWhile isWSChar
              let rest5 := rest4.dropWhile isWSChar
              match rest5 with
              | x :: y :: rest6 =>
                if x == rbChar && y == rbChar then
                  some (a :: b :: (ws1 ++ q1 :: (body ++ q2 :: (ws2 ++ [x, y]))),
                    body, rest6)
                else none
              | _ => none
            else none
          | [] => none
        else none
      | [] => none
    else none
  | _ => none

/-- Render the parameter object body `name: expr, ...` of a converted
template string (the `paramsObj` join of the source). -/
def paramsObjStr : List (String × String) → String
  | [] => ""
  | [(n, e)] => n ++ ": " ++ e
  | (n, e) :: rest => n ++ ": " ++ e ++ ", " ++ paramsObjStr rest

/-- Handler of pass 1.5 (template strings inside interpolation), embedding
lines 71–111 of `src/templateParser.js`. -/
def pass15Handler (o : Options) (m : I18nMap) (whole content : String) (u : USet) :
    String × USet :=
  if jsIncludes whole ("$t(") then (whole, u)
  else
    let ev := extractTemplateVars content
    if ev.hasChinese then
      let cleaned := cleanString ev.text
      let ci := detectColonSuffix cleaned
      if ci.hasColonSuffix then
        match getKeyForChinese o m ci.textWithoutColon u with
        | (none, u2) => (whole, u2)
        | (some k, u2) =>
          if ev.params.isEmpty then
            (String.mk (lbChar :: lbChar :: (" $t('" ++ k ++ "') + '" ++ ci.colonChar ++
              "' ").data ++ [rbChar, rbChar]), u2)
          else
            (String.mk (lbChar :: lbChar :: (" $t('" ++ k ++ "', " ++
              String.mk (lbChar :: (" " ++ paramsObjStr ev.params ++ " ").data ++ [rbChar]) ++
              ") + '" ++ ci.colonChar ++ "' ").data ++ [rbChar, rbChar]), u2)
      else
        match getKeyForChinese o m cleaned u with
        | (none, u2) => (whole, u2)
        | (some k, u2) =>
          if ev.params.isEmpty then
            (String.mk (lbChar :: lbChar :: (" $t('" ++ k ++ "') ").data ++
              [rbChar, rbChar]), u2)
          else
            (String.mk (lbChar :: lbChar :: (" $t('" ++ k ++ "', " ++
              String.mk (lbChar :: (" " ++ paramsObjStr ev.params ++ " ").data ++ [rbChar]) ++
              ") ").data ++ [rbChar, rbChar]), u2)
    else (whole, u)

/-- Scanner of pass 1.5. -/
def pass15Go (o : Options) (m : I18nMap) : Nat → List Char → USet → List Char × USet
  | 0, l, u => (l, u)
  | fuel + 1, l, u =>
    match l with
    | [] => ([], u)
    | c :: rest =>
      match tryPass15 l with
      | some (whole, body, rest2) =>
        let (rep, u2) := pass15Handler o m (String.mk whole) (String.mk body) u
        let (tail, u3) := pass15Go o m fuel rest2 u2
        (rep.data ++ tail, u3)
      | none =>
        let (tail, u2) := pass15Go o m fuel rest u
        (c :: tail, u2)

/-- Find the earliest interpolation `\x7b\x7b...\x7d\x7d` (non-greedy), as
the segmentation loop of pass 2 does: returns the text before it, the
whole interpolation span, and the remainder. -/
def findInterp (l : List Char) : Option (List Char × List Char × List Char) :=
  match splitAtSub (l.length + 1) l [lbChar, lbChar] with
  | some (before, afterOpen) =>
    match splitAtSub (afterOpen.length + 1) afterOpen [rbChar, rbChar] with
    | some (mid, rest) =>
      some (before, lbChar :: lbChar :: (mid ++ [rbChar, rbChar]), rest)
    | none => none
  | none => none

/-- Classify-and-convert of one plain text segment in pass 2. -/
def processTextSeg (o : Options) (m : I18nMap) (s : List Char) (u : USet) :
    List Char × USet :=
  let cleaned := cleanString (String.mk s)
  if isOnlyChinese cleaned then
    match convertToI18n o m cleaned Fmt.template u with
    | (some conv, u2) => (conv.data, u2)
    | (none, u2) => (s, u2)
  else (s, u)

/-- Segmentation loop of pass 2 over mixed text, producing the `parts`
list of the source (converted literal segments interleaved with
untouched interpolation spans). -/
def pass2Loop (o : Options) (m : I18nMap) : Nat → List Char → USet →
    List (List Char) × USet
  | 0, l, u => ([l], u)
  | fuel + 1, l, u =>
    match findInterp l with
    | some (before, interp, rest) =>
      let (bparts, u2) :=
        if before.isEmpty then (([] : List (List Char)), u)
        else
          let (seg, u2a) := processTextSeg o m before u
          ([seg], u2a)
      let (tparts, u3) := pass2Loop o m fuel rest u2
      (bparts ++ interp :: tparts, u3)
    | none =>
      if l.isEmpty then ([], u)
      else
        let (seg, u2) := processTextSeg o m l u
        ([seg], u2)

/-- Handler of pass 2 (text nodes between tags), embedding lines 115–169
of `src/templateParser.js`. -/
def pass2Handler (o : Options) (m : I18nMap) (whole text : List Char) (u : USet) :
    List Char × USet :=
  let ts := String.mk text
  if jsIncludes ts (String.mk [lbChar, lbChar]) && jsIncludes ts (String.mk [rbChar, rbChar]) then
    let (parts, u2) := pass2Loop o m (text.length + 1) text u
    let joined := parts.flatten
    if !parts.isEmpty && joined != text then ('>' :: (joined ++ ['<']), u2)
    else (whole, u2)
  else
    let cleaned := cleanString ts
    if isOnlyChinese cleaned then
      match convertToI18n o m cleaned Fmt.template u with
      | (some conv, u2) => ('>' :: (conv.data ++ ['<']), u2)
      | (none, u2) => (whole, u2)
    else (whole, u)

/-- Match attempt for pass 2: the regex `>([^<]+)<`. -/
def tryPass2 (l : List Char) : Option (List Char × List Char × List Char) :=
  match l with
  | c :: rest =>
    if c == '>' then
      let body := rest.takeWhile (fun x => x != '<')
      let rest2 := rest.dropWhile (fun x => x != '<')
      if body.isEmpty then none
      else
        match rest2 with
        | x :: rest3 => if x == '<' then some (c :: (body ++ [x]), body, rest3) else none
        | [] => none
    else none
  | [] => none

/-- Scanner of pass 2. -/
def pass2Go (o : Options) (m : I18nMap) : Nat → List Char → USet → List Char × USet
  | 0, l, u => (l, u)
  | fuel + 1, l, u =>
    match l with
    | [] => ([], u)
    | c :: rest =>
      match tryPass2 l with
      | some (whole, body, rest2) =>
        let (rep, u2) := pass2Handler o m whole body u
        let (tail, u3) := pass2Go o m fuel rest2 u2
        (rep ++ tail, u3)
      | none =>
        let (tail, u2) := pass2Go o m fuel rest u
        (c :: tail, u2)

/-- Match attempt for pass 3: the regex `\s+([a-zA-Z-:@]+)="([^"]+)"`. -/
def tryPass3 (l : List Char) : Option (List Char × List Char × List Char × List Char) :=
  let ws := l.takeWhile isWSChar
  let rest0 := l.dropWhile isWSChar
  if ws.isEmpty then none
  else
    let name := rest0.takeWhile isAttrChar
    let rest1 := rest0.dropWhile isAttrChar
    if name.isEmpty then none
    else
      match rest1 with
      | e :: q1 :: rest2 =>
        if e == '=' && q1 == dqChar then
          let value := rest2.takeWhile (fun c => c != dqChar)
          let rest3 := rest2.dropWhile (fun c => c != dqChar)
          if value.isEmpty then none
          else
            match rest3 with
            | q2 :: rest4 =>
              if q2 == dqChar then
                some (ws ++ name ++ e :: q1 :: (value ++ [q2]), name, value, rest4)
              else none
            | [] => none
        else none
      | _ => none

/-- Handler of pass 3 (static attributes), embedding lines 173–185 of
`src/templateParser.js`. -/
def pass3Handler (o : Options) (m : I18nMap) (whole name value : String) (u : USet) :
    String × USet :=
  if jsStartsWith name (":") || jsStartsWith name ("v-") then (whole, u)
  else
    let cleaned := cleanString value
    if isOnlyChinese cleaned then
      match convertToI18n o m cleaned Fmt.attr u with
      | (some conv, u2) => (" :" ++ name ++ "=\"" ++ conv ++ "\"", u2)
      | (none, u2) => (whole, u2)
    else (whole, u)

/-- Scanner of pass 3. -/
def pass3Go (o : Options) (m : I18nMap) : Nat → List Char → USet → List Char × USet
  | 0, l, u => (l, u)
  | fuel + 1, l, u =>
    match l with
    | [] => ([], u)
    | c :: rest =>
      match tryPass3 l with
      | some (whole, name, value, rest2) =>
        let (rep, u2) := pass3Handler o m (String.mk whole) (String.mk name)
          (String.mk value) u
        let (tail, u3) := pass3Go o m fuel rest2 u2
        (rep.data ++ tail, u3)
      | none =>
        let (tail, u2) := pass3Go o m fuel rest u
        (c :: tail, u2)

/-- Match attempt for pass 4: the regex
`:([a-zA-Z-]+)=["']([^"']*["']([^"']+)["'][^"']*)["']`. Returns the whole
match, the attribute name, the full bound value (group 2) and the inner
text (group 3). -/
def tryPass4 (l : List Char) :
    Option (List Char × List Char × List Char × List Char × List Char) :=
  match l with
  | c :: rest0 =>
    if c == ':' then
      let name := rest0.takeWhile isAttrChar2
      let rest1 := rest0.dropWhile isAttrChar2
      if name.isEmpty then none
      else
        match rest1 with
        | e :: bq1 :: rest2 =>
          if e == '=' && isQuote bq1 then
            let a1 := rest2.takeWhile (fun x => !isQuote x)
            let rest3 := rest2.dropWhile (fun x => !isQuote x)
            match rest3 with
            | q1 :: rest4 =>
              if isQuote q1 then
                let inner := rest4.takeWhile (fun x => !isQuote x)
                let rest5 := rest4.dropWhile (fun x => !isQuote x)
                if inner.isEmpty then none
                else
                  match rest5 with
                  | q2 :: rest6 =>
                    if isQuote q2 then
                      let a2 := rest6.takeWhile (fun x => !isQuote x)
                      let rest7 := rest6.dropWhile (fun x => !isQuote x)
                      match rest7 with
                      | bq2 :: rest8 =>
                        if isQuote bq2 then
                          let fullValue := a1 ++ q1 :: (inner ++ q2 :: a2)
                          some (c :: (name ++ e :: bq1 :: (fullValue ++ [bq2])),
                            name, fullValue, inner, rest8)
                        else none
                      | [] => none
                    else none
                  | [] => none
              else none
            | [] => none
          else none
        | _ => none
    else none
  | [] => none

/-- Handler of pass 4 (string literals inside bound attributes), embedding
lines 189–207 of `src/templateParser.js`. -/
def pass4Handler (o : Options) (m : I18nMap) (whole name fullValue inner : String)
    (u : USet) : String × USet :=
  let cleaned := cleanString inner
  if isOnlyChinese cleaned then
    if jsTrim fullValue == String.mk (sqChar :: (inner.data ++ [sqChar])) ||
        jsTrim fullValue == String.mk (dqChar :: (inner.data ++ [dqChar])) then
      let ci := detectColonSuffix cleaned
      if ci.hasColonSuffix then
        match getKeyForChinese o m ci.textWithoutColon u with
        | (none, u2) => (whole, u2)
        | (some k, u2) =>
          (":" ++ name ++ "=\"$t('" ++ k ++ "') + '" ++ ci.colonChar ++ "'\"", u2)
      else
        match getKeyForChinese o m cleaned u with
        | (none, u2) => (whole, u2)
        | (some k, u2) => (":" ++ name ++ "=\"$t('" ++ k ++ "')\"", u2)
    else (whole, u)
  else (whole, u)

/-- Scanner of pass 4. -/
def pass4Go (o : Options) (m : I18nMap) : Nat → List Char → USet → List Char × USet
  | 0, l, u => (l, u)
  | fuel + 1, l, u =>
    match l with
    | [] => ([], u)
    | c :: rest =>
      match tryPass4 l with
      | some (whole, name, fullValue, inner, rest2) =>
        let (rep, u2) := pass4Handler o m (String.mk whole) (String.mk name)
          (String.mk fullValue) (String.mk inner) u
        let (tail, u3) := pass4Go o m fuel rest2 u2
        (rep.data ++ tail, u3)
      | none =>
        let (tail, u2) := pass4Go o m fuel rest u
        (c :: tail, u2)

/-- Match attempt for pass 5: the regex
`:([a-zA-Z-]+)=["']` backtick `([^`...`]*)` backtick `["']`. -/
def tryPass5 (l : List Char) : Option (List Char × List Char × List Char × List Char) :=
  match l with
  | c :: rest0 =>
    if c == ':' then
      let name := rest0.takeWhile isAttrChar2
      let rest1 := rest0.dropWhile isAttrChar2
      if name.isEmpty then none
      else
        match rest1 with
        | e :: bq1 :: t1 :: rest2 =>
          if e == '=' && isQuote bq1 && t1 == bqChar then
            let body := rest2.takeWhile (fun x => x != bqChar)
            let rest3 := rest2.dropWhile (fun x => x != bqChar)
            match rest3 with
            | t2 :: bq2 :: rest4 =>
              if t2 == bqChar && isQuote bq2 then
                some (c :: (name ++ e :: bq1 :: t1 :: (body ++ [t2, bq2])), name, body, rest4)
              else none
            | _ => none
          else none
        | _ => none
    else none
  | [] => none

/-- Handler of pass 5 (template strings inside bound attributes),
embedding lines 211–246 of `src/templateParser.js`. -/
def pass5Handler (o : Options) (m : I18nMap) (whole name content : String) (u : USet) :
    String × USet :=
  let ev := extractTemplateVars content
  if ev.hasChinese then
    let cleaned := cleanString ev.text
    let ci := detectColonSuffix cleaned
    if ci.hasColonSuffix then
      match getKeyForChinese o m ci.textWithoutColon u with
      | (none, u2) => (whole, u2)
      | (some k, u2) =>
        if ev.params.isEmpty then
          (":" ++ name ++ "=\"$t('" ++ k ++ "') + '" ++ ci.colonChar ++ "'\"", u2)
        else
          (":" ++ name ++ "=\"$t('" ++ k ++ "', " ++
            String.mk (lbChar :: (" " ++ paramsObjStr ev.params ++ " ").data ++ [rbChar]) ++
            ") + '" ++ ci.colonChar ++ "'\"", u2)
    else
      match getKeyForChinese o m cleaned u with
      | (none, u2) => (whole, u2)
      | (some k, u2) =>
        if ev.params.isEmpty then (":" ++ name ++ "=\"$t('" ++ k ++ "')\"", u2)
        else
          (":" ++ name ++ "=\"$t('" ++ k ++ "', " ++
            String.mk (lbChar :: (" " ++ paramsObjStr ev.params ++ " ").data ++ [rbChar]) ++
            ")\"", u2)
  else (whole, u)

/-- Scanner of pass 5. -/
def pass5Go (o : Options) (m : I18nMap) : Nat → List Char → USet → List Char × USet
  | 0, l, u => (l, u)
  | fuel + 1, l, u =>
    match l with
    | [] => ([], u)
    | c :: rest =>
      match tryPass5 l with
      | some (whole, name, body, rest2) =>
        let (rep, u2) := pass5Handler o m (String.mk whole) (String.mk name)
          (String.mk body) u
        let (tail, u3) := pass5Go o m fuel rest2 u2
        (rep.data ++ tail, u3)
      | none =>
        let (tail, u2) := pass5Go o m fuel rest u
        (c :: tail, u2)

/-- Numeric value of a digit string (embeds `parseInt` on the digits
captured by pass 6). -/
def parseDigits (l : List Char) : Nat :=
  l.foldl (fun a c => a * 10 + (c.toNat - 48)) 0

/-- Pass 6 of `convertTemplate`: restore the protected comments from the
placeholder tokens `___COMMENT_PLACEHOLDER___(\d+)___`. -/
def pass6Go (comments : List String) : Nat → List Char → List Char
  | 0, l => l
  | fuel + 1, l =>
    match l with
    | [] => []
    | c :: rest =>
      if ("___COMMENT_PLACEHOLDER___").data.isPrefixOf l then
        let afterPh := l.drop ("___COMMENT_PLACEHOLDER___").data.length
        let digits := afterPh.takeWhile (fun x => x.isDigit)
        let rest1 := afterPh.dropWhile (fun x => x.isDigit)
        if digits.isEmpty then c :: pass6Go comments fuel rest
        else
          match rest1 with
          | x :: y :: z :: rest2 =>
            if x == '_' && y == '_' && z == '_' then
              let rep := comments.getD (parseDigits digits) ("undefined")
              rep.data ++ pass6Go comments fuel rest2
            else c :: pass6Go comments fuel rest
          | _ => c :: pass6Go comments fuel rest
      else c :: pass6Go comments fuel rest

/-- Embeds `convertTemplate` from `src/templateParser.js`: the ordered
sequence of passes 0 to 6 over the markup region, threading the
unmatched-text set. -/
def convertTemplate (o : Options) (m : I18nMap) (templateContent : String) (u : USet) :
    String × USet :=
  if templateContent.data.isEmpty then ("", u)
  else
    let (l0, comments) := pass0Go (templateContent.data.length + 1) templateContent.data []
    let (l1, u1) := pass1Go o m (l0.length + 1) l0 u
    let (l15, u15) := pass15Go o m (l1.length + 1) l1 u1
    let (l2, u2) := pass2Go o m (l15.length + 1) l15 u15
    let (l3, u3) := pass3Go o m (l2.length + 1) l2 u2
    let (l4, u4) := pass4Go o m (l3.length + 1) l3 u3
    let (l5, u5) := pass5Go o m (l4.length + 1) l4 u4
    let l6 := pass6Go comments (l5.length + 1) l5
    (String.mk l6, u5)

/-- Embeds `convertScript` from `src/scriptParser.js` at region level.
Parsing (recast with the babel parser) is an external collaborator; its
outcome for the region is passed as an `Except` value, and the `catch`
branch of the source returns the original content for any failure.
Printing of the transformed tree is the canonical printer
(recast reprints untouched nodes from the original source verbatim). -/
def convertScript (o : Options) (m : I18nMap) (parseResult : Except String Expr)
    (scriptContent : String) (u : USet) : String × USet :=
  if scriptContent.data.isEmpty then ("", u)
  else
    match parseResult with
    | Except.error _ => (scriptContent, u)
    | Except.ok e =>
      let (e2, u2) := convertExpr o m ctx0 e u
      (exprToCode e2, u2)

mutual

/-- Convertible-text predicate of a code region: some string literal whose
cleaned value is classified convertible, or some template literal whose
source text (with the expression sources interleaved, exactly as the
visitor computes it) is classified convertible. -/
def containsConvertible : Expr → Bool
  | Expr.strLit v => isOnlyChinese (cleanString v)
  | Expr.numLit _ => false
  | Expr.ident _ => false
  | Expr.member o _ => containsConvertible o
  | Expr.call c args => containsConvertible c || ccList args
  | Expr.binary _ l r => containsConvertible l || containsConvertible r
  | Expr.objectE ps => ccProps ps
  | Expr.template qs es =>
    isOnlyChinese (cleanString (templateSource qs es)) || ccList es

/-- List version of `containsConvertible`. -/
def ccList : ExprList → Bool
  | ExprList.nil => false
  | ExprList.cons e tl => containsConvertible e || ccList tl

/-- Property-list version of `containsConvertible`. -/
def ccProps : PropList → Bool
  | PropList.nil => false
  | PropList.cons _ v tl => containsConvertible v || ccProps tl

end

mutual

/-- Parser well-formedness: every template literal has one more quasi
segment than embedded expressions (always true of parsed code). -/
def wfExpr : Expr → Bool
  | Expr.strLit _ => true
  | Expr.numLit _ => true
  | Expr.ident _ => true
  | Expr.member o _ => wfExpr o
  | Expr.call c args => wfExpr c && wfList args
  | Expr.binary _ l r => wfExpr l && wfExpr r
  | Expr.objectE ps => wfProps ps
  | Expr.template qs es => (qs.length == exprListLength es + 1) && wfList es

/-- List version of `wfExpr`. -/
def wfList : ExprList → Bool
  | ExprList.nil => true
  | ExprList.cons e tl => wfExpr e && wfList tl

/-- Property-list version of `wfExpr`. -/
def wfProps : PropList → Bool
  | PropList.nil => true
  | PropList.cons _ v tl => wfExpr v && wfProps tl

end

/-- Default resolution options (no skip, no scope). -/
def optsDefault : Options := ⟨false, none⟩

/-- Skip-unmatched resolution options without a scope. -/
def optsSkip : Options := ⟨true, none⟩

/-- Dictionary of the disambiguation law: text `T` with the ordered
candidate keys `a.x`, `common.y`, `b.z`. -/
def dictT1 : I18nMap := [("T", KeyOrKeys.many ("a.x") ["common.y", "b.z"])]

/-- Same dictionary with `common.y` removed. -/
def dictT2 : I18nMap := [("T", KeyOrKeys.many ("a.x") ["b.z"])]

/-- Language pack `\x7bpda: \x7ba: '文本'\x7d, other: \x7ba: '文本'\x7d\x7d`. -/
def zhPdaOther : ZhFields :=
  ZhFields.cons ("pda")
    (ZhVal.node (ZhFields.cons ("a") (ZhVal.str ("文本")) ZhFields.nil))
    (ZhFields.cons ("other")
      (ZhVal.node (ZhFields.cons ("a") (ZhVal.str ("文本")) ZhFields.nil))
      ZhFields.nil)

/-- Language pack `\x7bother: \x7ba: '文本'\x7d\x7d`. -/
def zhOtherOnly : ZhFields :=
  ZhFields.cons ("other")
    (ZhVal.node (ZhFields.cons ("a") (ZhVal.str ("文本")) ZhFields.nil))
    ZhFields.nil

/-- Dictionary entry `"当前用户" -> "user.current"`. -/
def dictUser : I18nMap := [("当前用户", KeyOrKeys.one ("user.current"))]

/-- Template literal `` `当前用户：$\x7busername\x7d` `` in the code region. -/
def tmplUser : Expr :=
  Expr.template ["当前用户：", ""] (ExprList.cons (Expr.ident ("username")) ExprList.nil)

/-- Template literal `` `abc$\x7b测试\x7ddef` ``: ASCII body, CJK only in
the expression source. -/
def tmplAsciiBody : Expr :=
  Expr.template ["abc", "def"] (ExprList.cons (Expr.ident ("测试")) ExprList.nil)

/-- Concatenation `"你好" + f("中文")` in the code region. -/
def chainHello : Expr :=
  Expr.binary ("+") (Expr.strLit ("你好"))
    (Expr.call (Expr.ident ("f")) (ExprList.cons (Expr.strLit ("中文")) ExprList.nil))

/-- C1: for a text whose dictionary entry is an ordered group of two or
more candidate keys, resolution picks (1) the first key with the
`common.` path root if one exists, else (2) the first key with the
active scope root followed by a dot when a scope is set, else (3) with
no scope set, the first-seen key; concretely, for candidates
`a.x, common.y, b.z` in that order, no scope gives `common.y`, scope `b`
still gives `common.y`, removing `common.y` under scope `b` gives `b.z`,
and with neither common key nor scope the first-seen `a.x` is returned. -/
theorem c1_multi_candidate_priority :
    (∀ (skip : Bool) (mp : Option String) (m : I18nMap) (text : String) (u : USet)
      (h : String) (tl : List String) (ck : String),
      lookupMap m text = some (KeyOrKeys.many h tl) →
      (h :: tl).find? (fun k => jsStartsWith k ("common.")) = some ck →
      getKeyForChinese ⟨skip, mp⟩ m text u = (some ck, u)) ∧
    (∀ (skip : Bool) (mp : String) (m : I18nMap) (text : String) (u : USet)
      (h : String) (tl : List String) (mk : String),
      lookupMap m text = some (KeyOrKeys.many h tl) →
      (h :: tl).find? (fun k => jsStartsWith k ("common.")) = none →
      (h :: tl).find? (fun k => jsStartsWith k (mp ++ ".")) = some mk →
      getKeyForChinese ⟨skip, some mp⟩ m text u = (some mk, u)) ∧
    (∀ (skip : Bool) (m : I18nMap) (text : String) (u : USet)
      (h : String) (tl : List String),
      lookupMap m text = some (KeyOrKeys.many h tl) →
      (h :: tl).find? (fun k => jsStartsWith k ("common.")) = none →
      getKeyForChinese ⟨skip, none⟩ m text u = (some h, u)) ∧
    getKeyForChinese ⟨false, none⟩ dictT1 ("T") [] = (some ("common.y"), []) ∧
    getKeyForChinese ⟨false, some ("b")⟩ dictT1 ("T") [] = (some ("common.y"), []) ∧
    getKeyForChinese ⟨false, some ("b")⟩ dictT2 ("T") [] = (some ("b.z"), []) ∧
    getKeyForChinese ⟨false, none⟩ dictT2 ("T") [] = (some ("a.x"), []) := by
  refine ⟨?_, ?_, ?_, by decide, by decide, by decide, by decide⟩
  · intro skip mp m text u h tl ck h1 h2
    simp only [getKeyForChinese, h1, h2]
  · intro skip mp m text u h tl mk h1 h2 h3
    simp only [getKeyForChinese, h1, h2, h3]
  · intro skip m text u h tl h1 h2
    simp only [getKeyForChinese, h1, h2, isKeyPathMatched]
    simp

/-- Witness for C1: the general priority clauses applied at the concrete
dictionaries of the disambiguation law. -/
theorem c1_multi_candidate_priority_witness :
    getKeyForChinese ⟨false, some ("b")⟩ dictT1 ("T") [] = (some ("common.y"), []) ∧
    getKeyForChinese ⟨false, some ("b")⟩ dictT2 ("T") [] = (some ("b.z"), []) ∧
    getKeyForChinese ⟨false, none⟩ dictT2 ("T") [] = (some ("a.x"), []) :=
  ⟨c1_multi_candidate_priority.1 false (some ("b")) dictT1 ("T") [] ("a.x")
      ["common.y", "b.z"] ("common.y") (by decide) (by decide),
   c1_multi_candidate_priority.2.1 false ("b") dictT2 ("T") [] ("a.x") ["b.z"] ("b.z")
      (by decide) (by decide) (by decide),
   c1_multi_candidate_priority.2.2.1 false dictT2 ("T") [] ("a.x") ["b.z"]
      (by decide) (by decide)⟩

/-- C2 counterexample: for the code-region template literal
`` `当前用户：$\x7busername\x7d` `` with dictionary entry
`"当前用户" -> "user.current"` and default options, the rewriter does not
produce a call on key `user.current` with `\x7bparam1: username\x7d`
concatenated with a trailing colon literal: the colon is not trailing in
the placeholder-substituted text, so resolution misses. -/
theorem c2_template_colon_param_counterexample :
    (convertExpr optsDefault dictUser ctx0 tmplUser []).1 ≠
      Expr.binary ("+")
        (i18nTP ("user.current")
          (PropList.cons (PropKey.pid ("param1")) (Expr.ident ("username")) PropList.nil))
        (Expr.strLit ("：")) :=
  fun hEq => absurd (congrArg exprToCode hEq) (by decide)

/-- C2 amended: the rewriter rewrites the literal into a call whose key is
the placeholder-substituted text `当前用户：\x7bparam1\x7d` itself (the
lookup of that text misses, it is recorded unmatched, and under default
options the text is used as its own key) with parameter object
`\x7bparam1: username\x7d`; no trailing colon literal is emitted. -/
theorem c2_template_colon_param_amended :
    convertExpr optsDefault dictUser ctx0 tmplUser [] =
      (i18nTP ("当前用户：\x7bparam1\x7d")
        (PropList.cons (PropKey.pid ("param1")) (Expr.ident ("username")) PropList.nil),
       ["当前用户：\x7bparam1\x7d"]) := by rfl

/-- C4: a text whose dictionary entry is a single key that satisfies
neither the `common.` root nor the active scope root resolves as not
found: the text is recorded in the unmatched set and the result is
absent in skip mode, or the text itself otherwise; concretely, with
scope `pda` the two-key pack resolves `文本` to `pda.a` while the pack
holding only `other.a` resolves it as unmatched. -/
theorem c4_scope_filter_single_key :
    (∀ (skip : Bool) (mp : Option String) (m : I18nMap) (text : String) (u : USet)
      (k : String),
      lookupMap m text = some (KeyOrKeys.one k) →
      isKeyPathMatched ⟨skip, mp⟩ k = false →
      getKeyForChinese ⟨skip, mp⟩ m text u =
        ((if skip then none else some text), addUnmatched u text)) ∧
    flattenI18nObject zhPdaOther = [("文本", KeyOrKeys.many ("pda.a") ["other.a"])] ∧
    getKeyForChinese ⟨false, some ("pda")⟩ (flattenI18nObject zhPdaOther) ("文本") [] =
      (some ("pda.a"), []) ∧
    flattenI18nObject zhOtherOnly = [("文本", KeyOrKeys.one ("other.a"))] ∧
    getKeyForChinese ⟨true, some ("pda")⟩ (flattenI18nObject zhOtherOnly) ("文本") [] =
      (none, ["文本"]) ∧
    getKeyForChinese ⟨false, some ("pda")⟩ (flattenI18nObject zhOtherOnly) ("文本") [] =
      (some ("文本"), ["文本"]) := by
  refine ⟨?_, by decide, by decide, by decide, by decide, by decide⟩
  intro skip mp m text u k h1 h2
  simp only [getKeyForChinese, h1, h2]
  cases skip <;> simp

/-- Witness for C4: the general scope-filter clause applied at the
one-key dictionary with scope `pda`. -/
theorem c4_scope_filter_single_key_witness :
    getKeyForChinese ⟨true, some ("pda")⟩ [("文本", KeyOrKeys.one ("other.a"))] ("文本") [] =
      (none, ["文本"]) :=
  c4_scope_filter_single_key.1 true (some ("pda")) [("文本", KeyOrKeys.one ("other.a"))]
    ("文本") [] ("other.a") (by decide) (by decide)

/-- C5: in skip mode a convertible text with no usable dictionary key
resolves to the absent result while being recorded once (set semantics),
and a markup region holding two occurrences of `新功能` (one with a
trailing colon) is returned byte-identical with `新功能` appearing
exactly once in the unmatched set. -/
theorem c5_skip_unmatched_markup :
    (∀ (mp : Option String) (m : I18nMap) (t : String) (u : USet),
      lookupMap m t = none →
      getKeyForChinese ⟨true, mp⟩ m t u = (none, addUnmatched u t)) ∧
    (∀ (u : USet) (t : String), addUnmatched (addUnmatched u t) t = addUnmatched u t) ∧
    convertTemplate optsSkip [] ("<p>新功能</p><span>新功能：</span>") [] =
      ("<p>新功能</p><span>新功能：</span>", ["新功能"]) := by
  refine ⟨?_, ?_, by decide⟩
  · intro mp m t u h1
    simp only [getKeyForChinese, h1]
    simp
  · intro u t
    have hmem : t ∈ addUnmatched u t := by
      unfold addUnmatched
      split
      · next h => exact List.elem_iff.mp h
      · exact List.mem_append_right _ (List.mem_singleton.mpr rfl)
    have hc : (addUnmatched u t).contains t = true := List.elem_iff.mpr hmem
    show (if (addUnmatched u t).contains t = true then addUnmatched u t
      else addUnmatched u t ++ [t]) = addUnmatched u t
    rw [if_pos hc]

/-- Witness for C5: the skip-mode resolution clause applied at the empty
dictionary and the text `新功能`. -/
theorem c5_skip_unmatched_markup_witness :
    getKeyForChinese ⟨true, none⟩ [] ("新功能") [] = (none, ["新功能"]) :=
  c5_skip_unmatched_markup.1 none [] ("新功能") [] (by decide)

/-- C9: whenever tree construction fails for a code region (any parse
error outcome from the collaborating parser), the rewriter returns the
original region unchanged and touches no state, for every region and
every error. -/
theorem c9_parse_failure_fail_soft (o : Options) (m : I18nMap) (msg : String)
    (src : String) (u : USet) :
    convertScript o m (Except.error msg) src u = (src, u) := by
  obtain ⟨l⟩ := src
  cases l with
  | nil => rfl
  | cons c cs => rfl

mutual

/-- Inside a `console.*` call (any nesting depth: the flag is inherited by
every child context) the transform is the identity and no state changes. -/
theorem convertExpr_console_id (o : Options) (m : I18nMap) :
    ∀ (e : Expr) (pi pp mk : Bool) (u : USet),
      convertExpr o m ⟨true, pi, pp, mk⟩ e u = (e, u)
  | Expr.strLit v, pi, pp, mk, u => by
    unfold convertExpr
    dsimp only
    split_ifs <;> first | rfl | (exact absurd rfl (by assumption))
  | Expr.numLit n, _, _, _, u => rfl
  | Expr.ident n, _, _, _, u => rfl
  | Expr.member obj p, pi, pp, mk, u => by
    unfold convertExpr
    simp only [convertExpr_console_id o m obj false false false u]
  | Expr.call callee args, pi, pp, mk, u => by
    unfold convertExpr
    simp only [Bool.true_or]
    simp only [convertExpr_console_id o m callee (isI18nCallShape callee) false false u]
    simp only [convertExprList_console_id o m args (isI18nCallShape callee) false false u]
  | Expr.objectE props, pi, pp, mk, u => by
    unfold convertExpr
    simp only [convertProps_console_id o m props false false false u]
  | Expr.binary op l r, pi, pp, mk, u => by
    have ihl := fun (pb mb : Bool) (u1 : USet) =>
      convertExpr_console_id o m l false pb mb u1
    have ihr := fun (pb mb : Bool) (u1 : USet) =>
      convertExpr_console_id o m r false pb mb u1
    unfold convertExpr
    cases mk <;> simp [ihl, ihr]
  | Expr.template qs es, pi, pp, mk, u => by
    unfold convertExpr
    dsimp only
    simp [convertExprList_console_id o m es false false false u]

/-- List version of `convertExpr_console_id`. -/
theorem convertExprList_console_id (o : Options) (m : I18nMap) :
    ∀ (es : ExprList) (pi pp mk : Bool) (u : USet),
      convertExprList o m ⟨true, pi, pp, mk⟩ es u = (es, u)
  | ExprList.nil, _, _, _, u => rfl
  | ExprList.cons e tl, pi, pp, mk, u => by
    unfold convertExprList
    simp only [convertExpr_console_id o m e pi pp mk u,
      convertExprList_console_id o m tl pi pp mk u]

/-- Property-list version of `convertExpr_console_id`. -/
theorem convertProps_console_id (o : Options) (m : I18nMap) :
    ∀ (ps : PropList) (pi pp mk : Bool) (u : USet),
      convertProps o m ⟨true, pi, pp, mk⟩ ps u = (ps, u)
  | PropList.nil, _, _, _, u => rfl
  | PropList.cons k v tl, pi, pp, mk, u => by
    unfold convertProps
    simp only [convertExpr_console_id o m v pi pp mk u,
      convertProps_console_id o m tl pi pp mk u]

end

/-- C10: every expression under a context inside a `console` receiver call
is left unconverted with no state change (the ancestor walk of
`isInConsoleCall` reaches any nesting depth), and a whole call on a
member of the `console` object is returned untouched. -/
theorem c10_console_call_untouched :
    (∀ (o : Options) (m : I18nMap) (pi pp mk : Bool) (e : Expr) (u : USet),
      convertExpr o m ⟨true, pi, pp, mk⟩ e u = (e, u)) ∧
    (∀ (o : Options) (m : I18nMap) (mname : String) (args : ExprList) (u : USet),
      convertExpr o m ctx0 (Expr.call (Expr.member (Expr.ident ("console")) mname) args) u =
        (Expr.call (Expr.member (Expr.ident ("console")) mname) args, u)) := by
  refine ⟨fun o m pi pp mk e u => convertExpr_console_id o m e pi pp mk u, ?_⟩
  intro o m mname args u
  have h1 : isConsoleCallee (Expr.member (Expr.ident ("console")) mname) = true := rfl
  conv_lhs => unfold convertExpr
  dsimp only [ctx0]
  simp only [h1, Bool.false_or]
  simp only [convertExpr_console_id o m (Expr.member (Expr.ident ("console")) mname)
    (isI18nCallShape (Expr.member (Expr.ident ("console")) mname)) false false u]
  simp only [convertExprList_console_id o m args
    (isI18nCallShape (Expr.member (Expr.ident ("console")) mname)) false false u]

/-- C7 counterexample: the syntax-tree rewriter is not idempotent.
For `"你好" + f("中文")` with an empty dictionary and default options,
the first run produces a call whose parameter object embeds `f("中文")`
unvisited; the second run converts the nested literal `"中文"`, so the
second output differs from the first. -/
theorem c7_idempotence_counterexample :
    (convertExpr optsDefault [] ctx0 ((convertExpr optsDefault [] ctx0 chainHello []).1) []).1 ≠
      (convertExpr optsDefault [] ctx0 chainHello []).1 :=
  fun hEq => absurd (congrArg exprToCode hEq) (by decide)

/-- C7 amended: a literal that is a direct argument of a recognized
translation call is never re-wrapped — the call converts to a call with
the same callee shape, the literal argument byte-identical, and only the
remaining arguments traversed — although full idempotence fails
(see the counterexample). -/
theorem c7_direct_arg_no_rewrap (o : Options) (m : I18nMap) (callee : Expr) (s : String)
    (rest : ExprList) (u : USet) (hI : isI18nCallShape callee = true) :
    convertExpr o m ctx0 (Expr.call callee (ExprList.cons (Expr.strLit s) rest)) u =
      (Expr.call (convertExpr o m ⟨isConsoleCallee callee, true, false, false⟩ callee u).1
        (ExprList.cons (Expr.strLit s)
          (convertExprList o m ⟨isConsoleCallee callee, true, false, false⟩ rest
            (convertExpr o m ⟨isConsoleCallee callee, true, false, false⟩ callee u).2).1),
       (convertExprList o m ⟨isConsoleCallee callee, true, false, false⟩ rest
         (convertExpr o m ⟨isConsoleCallee callee, true, false, false⟩ callee u).2).2) := by
  have hstr : ∀ (u1 : USet),
      convertExpr o m ⟨isConsoleCallee callee, true, false, false⟩ (Expr.strLit s) u1 =
        (Expr.strLit s, u1) := by
    intro u1
    cases hc : isConsoleCallee callee <;>
      · unfold convertExpr
        dsimp only
        simp
  conv_lhs => unfold convertExpr
  dsimp only [ctx0]
  simp only [hI, Bool.false_or]
  conv_lhs => unfold convertExprList
  simp only [hstr]

/-- Witness for C7: the non-rewrap equation applied at `$i18n.t("密码")`,
which a repeated run leaves byte-identical. -/
theorem c7_direct_arg_no_rewrap_witness :
    convertExpr optsDefault [] ctx0 (i18nT ("密码")) [] = (i18nT ("密码"), []) :=
  (c7_direct_arg_no_rewrap optsDefault [] (Expr.member (Expr.ident ("$i18n")) ("t")) ("密码")
    ExprList.nil [] (by decide)).trans (by rfl)

/-- Decomposition of a singleton suffix: a list ending in `c` is its
`dropLast` followed by `c`. -/
theorem suffix_singleton (l : List Char) (c : Char) (h : List.isSuffixOf [c] l = true) :
    l = l.dropLast ++ [c] := by
  have h2 : [c] <:+ l := List.isSuffixOf_iff_suffix.mp h
  obtain ⟨p, hp⟩ := h2
  rw [← hp, List.dropLast_concat]

/-- When `detectColonSuffix` reports a trailing colon, the input is the
colon-free body followed by exactly that colon character, which is the
ASCII or the full-width colon. -/
theorem detectColon_decomp (s : String) (h : (detectColonSuffix s).hasColonSuffix = true) :
    s = (detectColonSuffix s).textWithoutColon ++ (detectColonSuffix s).colonChar ∧
    ((detectColonSuffix s).colonChar = ":" ∨ (detectColonSuffix s).colonChar = "：") := by
  obtain ⟨l⟩ := s
  by_cases h1 : (String.mk l).data.isEmpty
  · exfalso
    unfold detectColonSuffix at h
    rw [if_pos h1] at h
    simp at h
  · by_cases h2 : jsEndsWith (String.mk l) ("：") = true
    · unfold detectColonSuffix
      rw [if_neg h1, if_pos h2]
      refine ⟨?_, Or.inr rfl⟩
      have hx : l = l.dropLast ++ ['：'] := suffix_singleton l '：' h2
      exact congrArg String.mk hx
    · by_cases h3 : jsEndsWith (String.mk l) (":") = true
      · unfold detectColonSuffix
        rw [if_neg h1, if_neg h2, if_pos h3]
        refine ⟨?_, Or.inl rfl⟩
        have hx : l = l.dropLast ++ [':'] := suffix_singleton l ':' h3
        exact congrArg String.mk hx
      · exfalso
        unfold detectColonSuffix at h
        rw [if_neg h1, if_neg h2, if_neg h3] at h
        simp at h

/-- C6: every convertible literal whose cleaned text carries a trailing
colon and whose colon-free body resolves to a key is rewritten to the
call on that key followed by `+` and the same trailing colon character
as a literal outside the call; the key passed to the call is exactly the
resolution of the body with the colon removed. -/
theorem c6_trailing_colon_outside_call (o : Options) (m : I18nMap) (v : String)
    (u u2 : USet) (k : String)
    (h1 : isOnlyChinese (cleanString v) = true)
    (h2 : (detectColonSuffix (cleanString v)).hasColonSuffix = true)
    (h3 : getKeyForChinese o m (detectColonSuffix (cleanString v)).textWithoutColon u =
      (some k, u2)) :
    convertExpr o m ctx0 (Expr.strLit v) u =
      (Expr.binary ("+") (i18nT k)
        (Expr.strLit (detectColonSuffix (cleanString v)).colonChar), u2) ∧
    cleanString v = (detectColonSuffix (cleanString v)).textWithoutColon ++
      (detectColonSuffix (cleanString v)).colonChar ∧
    ((detectColonSuffix (cleanString v)).colonChar = ":" ∨
      (detectColonSuffix (cleanString v)).colonChar = "：") := by
  refine ⟨?_, (detectColon_decomp _ h2).1, (detectColon_decomp _ h2).2⟩
  conv_lhs => unfold convertExpr
  dsimp only [ctx0]
  simp [h1, h2, h3]

/-- Witness for C6: the colon law applied at `"密码："` with an empty
dictionary under default options. -/
theorem c6_trailing_colon_outside_call_witness :
    convertExpr optsDefault [] ctx0 (Expr.strLit ("密码：")) [] =
      (Expr.binary ("+") (i18nT ("密码")) (Expr.strLit ("：")), ["密码"]) :=
  (c6_trailing_colon_outside_call optsDefault [] ("密码：") [] ["密码"] ("密码")
    (by decide) (by decide) (by decide)).1.trans (by rfl)


theorem ws_not_cjk (c : Char) (h : isWSChar c = true) : isCJK c = false := by
  simp [isWSChar] at h
  rcases h with ((h | h) | h) | h <;> subst h <;> decide

theorem any_dropWhile_excl (p q : Char → Bool) (hpq : ∀ c, p c = true → q c = false) :
    ∀ (l : List Char), (l.dropWhile p).any q = l.any q := by
  intro l
  induction l with
  | nil => rfl
  | cons c t ih =>
    by_cases hc : p c = true
    · rw [List.dropWhile_cons_of_pos hc, ih]
      simp [hpq c hc]
    · rw [List.dropWhile_cons_of_neg hc]

theorem any_isCJK_trimChars (l : List Char) :
    (trimChars l).any isCJK = l.any isCJK := by
  unfold trimChars
  rw [List.any_reverse, any_dropWhile_excl _ _ ws_not_cjk, List.any_reverse,
    any_dropWhile_excl _ _ ws_not_cjk]

theorem digit_not_cjk (c : Char) (h : c.isDigit = true) : isCJK c = false := by
  simp [Char.isDigit] at h
  obtain ⟨h1, h2⟩ := h
  have hle : c.toNat ≤ 57 := h2
  unfold isCJK
  have h3 : ¬(19968 ≤ c.toNat) := by omega
  simp [h3]

theorem isOnlyChinese_eq_any (s : String) :
    isOnlyChinese s = s.data.any isCJK := by
  unfold isOnlyChinese jsTrim
  dsimp only
  by_cases h1 : (trimChars s.data).isEmpty = true
  · rw [if_pos h1]
    have h2 : trimChars s.data = [] := List.isEmpty_iff.mp h1
    have h3 := any_isCJK_trimChars s.data
    rw [h2] at h3
    simpa using h3
  · rw [if_neg h1]
    by_cases h2 : (trimChars s.data).all (fun c => c.isDigit) = true
    · rw [if_pos h2]
      have h3 : (trimChars s.data).any isCJK = false := by
        rw [List.any_eq_false]
        intro x hx
        have hd := List.all_eq_true.mp h2 x hx
        simp [digit_not_cjk x hd]
      rw [← any_isCJK_trimChars s.data, h3]
    · rw [if_neg h2, any_isCJK_trimChars]

theorem isOnlyChinese_cleanString_eq (s : String) :
    isOnlyChinese (cleanString s) = s.data.any isCJK := by
  rw [isOnlyChinese_eq_any]
  show (trimChars s.data).any isCJK = s.data.any isCJK
  exact any_isCJK_trimChars s.data


theorem digitChar_not_cjk (k : Nat) : isCJK (digitChar k) = false := by
  unfold digitChar
  split <;> decide

theorem natReprAux_noCJK : ∀ (f n : Nat), (natReprAux f n).any isCJK = false := by
  intro f
  induction f with
  | zero => intro n; rfl
  | succ f ih =>
    intro n
    unfold natReprAux
    by_cases h : n < 10
    · simp [h, digitChar_not_cjk]
    · simp [h, List.any_append, ih, digitChar_not_cjk]

theorem natRepr_noCJK (n : Nat) : (natRepr n).data.any isCJK = false :=
  natReprAux_noCJK (n + 1) n

theorem paramName_noCJK (n : Nat) : (("param" ++ natRepr n)).data.any isCJK = false := by
  show (("param").data ++ (natRepr n).data).any isCJK = false
  rw [List.any_append]
  simp [natRepr_noCJK, show (("param").data.any isCJK) = false by decide]

theorem buildChain_noCJK : ∀ (parts : List ChainPart) (n : Nat),
    (∀ s, ChainPart.pstr s ∈ parts → s.data.any isCJK = false) →
    ((buildChainTemplate parts n).1.data.any isCJK = false) := by
  intro parts
  induction parts with
  | nil => intro n h; rfl
  | cons p rest ih =>
    intro n h
    cases p with
    | pstr s =>
      unfold buildChainTemplate
      dsimp only
      show ((s ++ (buildChainTemplate rest n).1).data.any isCJK = false)
      rw [show (s ++ (buildChainTemplate rest n).1).data =
        s.data ++ (buildChainTemplate rest n).1.data from rfl, List.any_append]
      rw [h s (List.mem_cons_self _ _), ih n (fun s2 hs2 => h s2 (List.mem_cons_of_mem _ hs2))]
      rfl
    | phole e =>
      unfold buildChainTemplate
      dsimp only
      simp only [List.any_cons, List.any_append, paramName_noCJK,
        ih (n + 1) (fun s2 hs2 => h s2 (List.mem_cons_of_mem _ hs2))]
      decide

theorem collectParts_pstr_noCJK : ∀ (e : Expr),
    containsConvertible e = false →
    ∀ s, ChainPart.pstr s ∈ collectBinaryParts e → s.data.any isCJK = false
  | Expr.strLit v => by
    intro h s hs
    unfold collectBinaryParts at hs
    rcases List.mem_singleton.mp hs with h2
    cases h2
    have h3 : isOnlyChinese (cleanString v) = false := h
    rw [isOnlyChinese_cleanString_eq] at h3
    exact h3
  | Expr.binary op l r => by
    intro h s hs
    have hl : containsConvertible l = false := by
      have h2 : (containsConvertible l || containsConvertible r) = false := h
      exact (Bool.or_eq_false_iff.mp h2).1
    have hr : containsConvertible r = false := by
      have h2 : (containsConvertible l || containsConvertible r) = false := h
      exact (Bool.or_eq_false_iff.mp h2).2
    unfold collectBinaryParts at hs
    by_cases hcond : (op == "+" && (containsStringLiteral l || containsStringLiteral r)) = true
    · rw [if_pos hcond] at hs
      rcases List.mem_append.mp hs with h2 | h2
      · exact collectParts_pstr_noCJK l hl s h2
      · exact collectParts_pstr_noCJK r hr s h2
    · rw [if_neg hcond] at hs
      split_ifs at hs <;> simp at hs
  | Expr.numLit n => by
    intro h s hs
    simp [collectBinaryParts] at hs
  | Expr.ident n => by
    intro h s hs
    simp [collectBinaryParts] at hs
  | Expr.member o p => by
    intro h s hs
    simp [collectBinaryParts] at hs
  | Expr.call c args => by
    intro h s hs
    simp [collectBinaryParts] at hs
  | Expr.objectE ps => by
    intro h s hs
    simp [collectBinaryParts] at hs
  | Expr.template qs es => by
    intro h s hs
    simp [collectBinaryParts] at hs


mutual

theorem convertExpr_noconv_id (o : Options) (m : I18nMap) :
    ∀ (e : Expr) (ctx : Ctx) (u : USet),
      containsConvertible e = false → convertExpr o m ctx e u = (e, u)
  | Expr.strLit v, ctx, u, h => by
    have h' : isOnlyChinese (cleanString v) = false := h
    unfold convertExpr
    simp [h']
  | Expr.numLit n, _, u, _ => rfl
  | Expr.ident n, _, u, _ => rfl
  | Expr.member obj p, ctx, u, h => by
    unfold convertExpr
    simp only [convertExpr_noconv_id o m obj ⟨ctx.inConsole, false, false, false⟩ u h]
  | Expr.call callee args, ctx, u, h => by
    have h2 : (containsConvertible callee || ccList args) = false := h
    unfold convertExpr
    simp only [convertExpr_noconv_id o m callee
      ⟨ctx.inConsole || isConsoleCallee callee, isI18nCallShape callee, false, false⟩ u
      (Bool.or_eq_false_iff.mp h2).1]
    simp only [convertExprList_noconv_id o m args
      ⟨ctx.inConsole || isConsoleCallee callee, isI18nCallShape callee, false, false⟩ u
      (Bool.or_eq_false_iff.mp h2).2]
  | Expr.objectE props, ctx, u, h => by
    unfold convertExpr
    simp only [convertProps_noconv_id o m props ⟨ctx.inConsole, false, false, false⟩ u h]
  | Expr.binary op l r, ctx, u, h => by
    have h2 : (containsConvertible l || containsConvertible r) = false := h
    have key : isOnlyChinese
        (cleanString (buildChainTemplate (collectBinaryParts (Expr.binary op l r)) 0).1) =
        false := by
      rw [isOnlyChinese_cleanString_eq]
      exact buildChain_noCJK _ 0 (collectParts_pstr_noCJK (Expr.binary op l r) h)
    have ihl := fun (pp mk : Bool) (u1 : USet) =>
      convertExpr_noconv_id o m l ⟨ctx.inConsole, false, pp, mk⟩ u1
        (Bool.or_eq_false_iff.mp h2).1
    have ihr := fun (pp mk : Bool) (u1 : USet) =>
      convertExpr_noconv_id o m r ⟨ctx.inConsole, false, pp, mk⟩ u1
        (Bool.or_eq_false_iff.mp h2).2
    unfold convertExpr
    simp [ihl, ihr, key]
  | Expr.template qs es, ctx, u, h => by
    have h2 : (isOnlyChinese (cleanString (templateSource qs es)) || ccList es) = false := h
    have ihes := fun (u1 : USet) =>
      convertExprList_noconv_id o m es ⟨ctx.inConsole, false, false, false⟩ u1
        (Bool.or_eq_false_iff.mp h2).2
    unfold convertExpr
    simp [ihes, (Bool.or_eq_false_iff.mp h2).1]

theorem convertExprList_noconv_id (o : Options) (m : I18nMap) :
    ∀ (es : ExprList) (ctx : Ctx) (u : USet),
      ccList es = false → convertExprList o m ctx es u = (es, u)
  | ExprList.nil, _, u, _ => rfl
  | ExprList.cons e tl, ctx, u, h => by
    have h2 : (containsConvertible e || ccList tl) = false := h
    unfold convertExprList
    simp only [convertExpr_noconv_id o m e ctx u (Bool.or_eq_false_iff.mp h2).1,
      convertExprList_noconv_id o m tl ctx u (Bool.or_eq_false_iff.mp h2).2]

theorem convertProps_noconv_id (o : Options) (m : I18nMap) :
    ∀ (ps : PropList) (ctx : Ctx) (u : USet),
      ccProps ps = false → convertProps o m ctx ps u = (ps, u)
  | PropList.nil, _, u, _ => rfl
  | PropList.cons k v tl, ctx, u, h => by
    have h2 : (containsConvertible v || ccProps tl) = false := h
    unfold convertProps
    simp only [convertExpr_noconv_id o m v ctx u (Bool.or_eq_false_iff.mp h2).1,
      convertProps_noconv_id o m tl ctx u (Bool.or_eq_false_iff.mp h2).2]

end


/-- C8: every code region containing no convertible text — no string
literal whose cleaned value is classified convertible and no template
literal whose source text is — is returned identical, with the
unmatched set untouched. -/
theorem c8_no_convertible_identity (o : Options) (m : I18nMap) (e : Expr) (u : USet)
    (h : containsConvertible e = false) :
    convertExpr o m ctx0 e u = (e, u) :=
  convertExpr_noconv_id o m e ctx0 u h

/-- Witness for C8: the identity applied at `f("hello", 5)`. -/
theorem c8_no_convertible_identity_witness :
    convertExpr optsDefault [] ctx0
      (Expr.call (Expr.ident ("f"))
        (ExprList.cons (Expr.strLit ("hello")) (ExprList.cons (Expr.numLit 5) ExprList.nil)))
      [] =
      (Expr.call (Expr.ident ("f"))
        (ExprList.cons (Expr.strLit ("hello")) (ExprList.cons (Expr.numLit 5) ExprList.nil)),
       []) :=
  c8_no_convertible_identity optsDefault [] _ [] (by decide)

theorem exprCodes_length : ∀ (es : ExprList), (exprCodes es).length = exprListLength es
  | ExprList.nil => rfl
  | ExprList.cons e tl => by
    unfold exprCodes exprListLength
    simp [exprCodes_length tl]

theorem any_false_sub {l1 l2 : List Char} (h : l2.any isCJK = false)
    (hsub : ∀ x, x ∈ l1 → x ∈ l2) : l1.any isCJK = false := by
  rw [List.any_eq_false] at h ⊢
  intro x hx
  exact h x (hsub x hx)

theorem listCode_noCJK_each : ∀ (es : ExprList),
    (exprListToCode es).data.any isCJK = false →
    ∀ c ∈ exprCodes es, c.data.any isCJK = false
  | ExprList.nil => by intro h c hc; simp [exprCodes] at hc
  | ExprList.cons e tl => by
    intro h c hc
    cases tl with
    | nil =>
      rcases List.mem_singleton.mp hc with h2
      subst h2
      exact h
    | cons f tl2 =>
      have hsplit : (exprListToCode (ExprList.cons e (ExprList.cons f tl2))).data =
          ((exprToCode e).data ++ (", ").data) ++
            (exprListToCode (ExprList.cons f tl2)).data := rfl
      rw [hsplit] at h
      rcases List.mem_cons.mp hc with h2 | hc2
      · subst h2
        exact any_false_sub h (fun x hx => by simp [List.mem_append, hx])
      · refine listCode_noCJK_each (ExprList.cons f tl2) ?_ c hc2
        exact any_false_sub h (fun x hx => by simp [List.mem_append, hx])

theorem interleave_codes_noCJK : ∀ (qs : List String) (cs : List String),
    cs.length < qs.length →
    (interleaveTemplate qs cs).data.any isCJK = false →
    ∀ c ∈ cs, c.data.any isCJK = false
  | [], cs => by intro hlen h c hc; simp at hlen
  | q :: qs, [] => by intro hlen h c hc; simp at hc
  | q :: qs, c0 :: cs => by
    intro hlen h c hc
    have hsplit : (interleaveTemplate (q :: qs) (c0 :: cs)).data =
        (q.data ++ (('$' :: lbChar :: c0.data) ++ [rbChar])) ++
          (interleaveTemplate qs cs).data := rfl
    rw [hsplit] at h
    rcases List.mem_cons.mp hc with h2 | hc2
    · subst h2
      exact any_false_sub h (fun x hx => by simp [List.mem_append, List.mem_cons, hx])
    · refine interleave_codes_noCJK qs cs (Nat.lt_of_succ_lt_succ (by simpa using hlen)) ?_ c hc2
      exact any_false_sub h (fun x hx => by simp [List.mem_append, hx])


mutual

theorem cc_false_of_code_noCJK : ∀ (e : Expr),
    wfExpr e = true → (exprToCode e).data.any isCJK = false →
    containsConvertible e = false
  | Expr.strLit v, _, h => by
    have hv : v.data.any isCJK = false :=
      any_false_sub h (fun x hx => by
        show x ∈ dqChar :: (v.data ++ [dqChar])
        simp [List.mem_append, hx])
    show isOnlyChinese (cleanString v) = false
    rw [isOnlyChinese_cleanString_eq]
    exact hv
  | Expr.numLit n, _, _ => rfl
  | Expr.ident n, _, _ => rfl
  | Expr.member obj p, hwf, h => by
    show containsConvertible obj = false
    refine cc_false_of_code_noCJK obj hwf ?_
    exact any_false_sub h (fun x hx => by
      show x ∈ ((exprToCode obj).data ++ (".").data) ++ p.data
      simp [List.mem_append, hx])
  | Expr.call callee args, hwf, h => by
    have hwf2 : wfExpr callee = true ∧ wfList args = true := by
      simpa [wfExpr, Bool.and_eq_true] using hwf
    have hc : (exprToCode callee).data.any isCJK = false :=
      any_false_sub h (fun x hx => by
        show x ∈ (((exprToCode callee).data ++ ("(").data) ++
          (exprListToCode args).data) ++ (")").data
        simp [List.mem_append, hx])
    have hargs : (exprListToCode args).data.any isCJK = false :=
      any_false_sub h (fun x hx => by
        show x ∈ (((exprToCode callee).data ++ ("(").data) ++
          (exprListToCode args).data) ++ (")").data
        simp [List.mem_append, hx])
    show (containsConvertible callee || ccList args) = false
    rw [cc_false_of_code_noCJK callee hwf2.1 hc,
      ccList_false_of_codes_noCJK args hwf2.2 (listCode_noCJK_each args hargs)]
    rfl
  | Expr.binary op l r, hwf, h => by
    have hwf2 : wfExpr l = true ∧ wfExpr r = true := by
      simpa [wfExpr, Bool.and_eq_true] using hwf
    have hl : (exprToCode l).data.any isCJK = false :=
      any_false_sub h (fun x hx => by
        show x ∈ ((((exprToCode l).data ++ (" ").data) ++ op.data) ++ (" ").data) ++
          (exprToCode r).data
        simp [List.mem_append, hx])
    have hr : (exprToCode r).data.any isCJK = false :=
      any_false_sub h (fun x hx => by
        show x ∈ ((((exprToCode l).data ++ (" ").data) ++ op.data) ++ (" ").data) ++
          (exprToCode r).data
        simp [List.mem_append, hx])
    show (containsConvertible l || containsConvertible r) = false
    rw [cc_false_of_code_noCJK l hwf2.1 hl, cc_false_of_code_noCJK r hwf2.2 hr]
    rfl
  | Expr.objectE ps, hwf, h => by
    show ccProps ps = false
    refine ccProps_false_of_code_noCJK ps hwf ?_
    exact any_false_sub h (fun x hx => by
      show x ∈ lbChar :: ((propListToCode ps).data ++ [rbChar])
      simp [List.mem_append, hx])
  | Expr.template qs es, hwf, h => by
    have hwf2 : (qs.length == exprListLength es + 1) = true ∧ wfList es = true := by
      simpa [wfExpr, Bool.and_eq_true] using hwf
    have hint : (interleaveTemplate qs (exprCodes es)).data.any isCJK = false :=
      any_false_sub h (fun x hx => by
        show x ∈ bqChar :: ((interleaveTemplate qs (exprCodes es)).data ++ [bqChar])
        simp [List.mem_append, hx])
    have hq : qs.length = exprListLength es + 1 := by simpa using hwf2.1
    have hlen : (exprCodes es).length < qs.length := by
      rw [exprCodes_length, hq]
      exact Nat.lt_succ_self _
    have hcs := interleave_codes_noCJK qs (exprCodes es) hlen hint
    show (isOnlyChinese (cleanString (templateSource qs es)) || ccList es) = false
    rw [isOnlyChinese_cleanString_eq]
    have hsrc : (templateSource qs es).data.any isCJK = false := hint
    rw [hsrc, ccList_false_of_codes_noCJK es hwf2.2 hcs]
    rfl

theorem ccList_false_of_codes_noCJK : ∀ (es : ExprList),
    wfList es = true → (∀ c ∈ exprCodes es, c.data.any isCJK = false) →
    ccList es = false
  | ExprList.nil, _, _ => rfl
  | ExprList.cons e tl, hwf, h => by
    have hwf2 : wfExpr e = true ∧ wfList tl = true := by
      simpa [wfList, Bool.and_eq_true] using hwf
    show (containsConvertible e || ccList tl) = false
    rw [cc_false_of_code_noCJK e hwf2.1 (h (exprToCode e) (List.mem_cons_self _ _)),
      ccList_false_of_codes_noCJK tl hwf2.2
        (fun c hc => h c (List.mem_cons_of_mem _ hc))]
    rfl

theorem ccProps_false_of_code_noCJK : ∀ (ps : PropList),
    wfProps ps = true → (propListToCode ps).data.any isCJK = false →
    ccProps ps = false
  | PropList.nil, _, _ => rfl
  | PropList.cons k v tl, hwf, h => by
    have hwf2 : wfExpr v = true ∧ wfProps tl = true := by
      simpa [wfProps, Bool.and_eq_true] using hwf
    have hv : (exprToCode v).data.any isCJK = false := by
      cases tl with
      | nil =>
        exact any_false_sub h (fun x hx => by
          show x ∈ ((propKeyToCode k).data ++ (": ").data) ++ (exprToCode v).data
          simp [List.mem_append, hx])
      | cons k2 v2 tl2 =>
        exact any_false_sub h (fun x hx => by
          show x ∈ ((((propKeyToCode k).data ++ (": ").data) ++ (exprToCode v).data) ++
            (", ").data) ++ (propListToCode (PropList.cons k2 v2 tl2)).data
          simp [List.mem_append, hx])
    have htl : (propListToCode tl).data.any isCJK = false := by
      cases tl with
      | nil => rfl
      | cons k2 v2 tl2 =>
        exact any_false_sub h (fun x hx => by
          show x ∈ ((((propKeyToCode k).data ++ (": ").data) ++ (exprToCode v).data) ++
            (", ").data) ++ (propListToCode (PropList.cons k2 v2 tl2)).data
          simp [List.mem_append, hx])
    show (containsConvertible v || ccProps tl) = false
    rw [cc_false_of_code_noCJK v hwf2.1 hv,
      ccProps_false_of_code_noCJK tl hwf2.2 htl]
    rfl

end


/-- C3 amended: the markup rewriter leaves a template with interpolation
untouched whenever the body with the expressions stripped contains no
CJK ideograph (interpolation passes 1.5 and 5); the code-region rewriter
guards on the template source with the expression code included, so it
leaves the literal untouched when that full source contains no CJK —
but not when only the expression sources do (see the counterexample). -/
theorem c3_ascii_body_amended :
    (∀ (o : Options) (m : I18nMap) (whole content : String) (u : USet),
      (extractTemplateVars content).hasChinese = false →
      pass15Handler o m whole content u = (whole, u)) ∧
    (∀ (o : Options) (m : I18nMap) (whole name content : String) (u : USet),
      (extractTemplateVars content).hasChinese = false →
      pass5Handler o m whole name content u = (whole, u)) ∧
    (∀ (o : Options) (m : I18nMap) (qs : List String) (es : ExprList) (u : USet),
      wfExpr (Expr.template qs es) = true →
      (templateSource qs es).data.any isCJK = false →
      convertExpr o m ctx0 (Expr.template qs es) u = (Expr.template qs es, u)) := by
  refine ⟨?_, ?_, ?_⟩
  · intro o m whole content u h
    unfold pass15Handler
    simp [h]
  · intro o m whole name content u h
    unfold pass5Handler
    simp [h]
  · intro o m qs es u hwf hsrc
    have hwf2 : (qs.length == exprListLength es + 1) = true ∧ wfList es = true := by
      simpa [wfExpr, Bool.and_eq_true] using hwf
    have hq : qs.length = exprListLength es + 1 := by simpa using hwf2.1
    have hlen : (exprCodes es).length < qs.length := by
      rw [exprCodes_length, hq]
      exact Nat.lt_succ_self _
    have hcs := interleave_codes_noCJK qs (exprCodes es) hlen hsrc
    have hcc : containsConvertible (Expr.template qs es) = false := by
      show (isOnlyChinese (cleanString (templateSource qs es)) || ccList es) = false
      rw [isOnlyChinese_cleanString_eq]
      have hsrc2 : (templateSource qs es).data.any isCJK = false := hsrc
      rw [hsrc2, ccList_false_of_codes_noCJK es hwf2.2 hcs]
      rfl
    exact convertExpr_noconv_id o m _ ctx0 u hcc

/-- C3 counterexample: the code-region rewriter does not leave
`` `abc$\x7b测试\x7ddef` `` untouched even though its non-expression
content `abcdef` contains no CJK ideograph: the guard sees the CJK
identifier in the expression source and, under default options, the
literal is rewritten with the placeholder text as key. -/
theorem c3_ascii_body_counterexample :
    (convertExpr optsDefault [] ctx0 tmplAsciiBody []).1 ≠ tmplAsciiBody :=
  fun hEq => absurd (congrArg exprToCode hEq) (by decide)

/-- Witness for C3: the amended clauses applied at an ASCII-only handler
input and an ASCII-source template. -/
theorem c3_ascii_body_amended_witness :
    pass15Handler optsDefault [] ("w") ("abc") [] = (("w"), []) ∧
    convertExpr optsDefault [] ctx0
      (Expr.template ["a", ""] (ExprList.cons (Expr.ident ("x")) ExprList.nil)) [] =
      (Expr.template ["a", ""] (ExprList.cons (Expr.ident ("x")) ExprList.nil), []) :=
  ⟨c3_ascii_body_amended.1 optsDefault [] ("w") ("abc") [] (by decide),
   c3_ascii_body_amended.2.2 optsDefault [] ["a", ""] (ExprList.cons (Expr.ident ("x")) ExprList.nil) []
     (by decide) (by decide)⟩


end VC

